import Mathlib

/-!
# rgrep: recursive line-oriented substring search

A shallow embedding of `src/rgrep.c`.

Conventions of the embedding.

* A byte is a `Nat` (the value of an `unsigned char`); `'\n'` is `10`, `'/'` is `47`,
  `':'` is `58`, the terminator `'\0'` is `0`.
* A `const char *` argument is the list of bytes stored from the pointer onwards.  The
  C string it denotes is the run of bytes before the first `0` (`cstr`); a list without a
  `0` byte is read as followed by its terminator.
* A pointer returned into a string is the offset from the start of that string; `NULL`
  is `none`.
* `long` values are `Int` (a line counter never reaches `2 ^ 63`: a file has fewer
  bytes than that), `size_t` values are `Nat`, reduced modulo `2 ^ 64` where the source
  adds lengths (`path_join`).
* A procedure of the source that writes or calls the system is the list of the calls it
  makes (`Event`); what the system answers is read from an `Env`.
-/

namespace Rgrep

/-! ## C library: strings -/

/-- Contents of the C string stored at the start of `s`: the bytes before the first `0`. -/
def cstr (s : List Nat) : List Nat := s.takeWhile (fun c => c != 0)

/-- C library `strlen`. -/
def strlen (s : List Nat) : Nat := (cstr s).length

/-- C library `tolower` in the "C" locale, on an `unsigned char` value. -/
def tolower (c : Nat) : Nat := if 65 ≤ c ∧ c ≤ 90 then c + 32 else c

/-- Search loop of C library `strstr`: `n` is the needle's contents, the list is the
haystack's contents from the current position on, `off` the current position. -/
def strstr_from (n : List Nat) : List Nat → Nat → Option Nat
  | [], off => if n = [] then some off else none
  | c :: rest, off =>
    if n.isPrefixOf (c :: rest) then some off else strstr_from n rest (off + 1)

/-- C library `strstr`: position of the first occurrence of the string `needle` in the
string `hay`; position `0` when `needle` is the empty string. -/
def strstr (hay needle : List Nat) : Option Nat :=
  strstr_from (cstr needle) (cstr hay) 0

/-! ## `memcasecmp` and `find_substr` -/

/-- The `for` loop of `memcasecmp`; `k` iterations remain, `i` is the loop index. -/
def memcasecmp_loop (a b : List Nat) : Nat → Nat → Int
  | 0, _ => 0
  | k + 1, i =>
    let da : Int := tolower (a.getD i 0)
    let db : Int := tolower (b.getD i 0)
    if da ≠ db then da - db else memcasecmp_loop a b k (i + 1)

/-- Source `memcasecmp(a, b, n)`. -/
def memcasecmp (a b : List Nat) (n : Nat) : Int := memcasecmp_loop a b n 0

/-- The `for (p = hay; *p; ++p)` loop of `find_substr`; the list is the memory from `p`
on, `off` is `p - hay`. -/
def find_substr_loop (needle : List Nat) (nlen : Nat) : List Nat → Nat → Option Nat
  | [], _ => none
  | c :: rest, off =>
    if c = 0 then none
    else if tolower c = tolower (needle.getD 0 0) then
      if strlen (c :: rest) < nlen then none
      else if memcasecmp (c :: rest) needle nlen = 0 then some off
      else find_substr_loop needle nlen rest (off + 1)
    else find_substr_loop needle nlen rest (off + 1)

/-- Source `find_substr(hay, needle, icase)`. -/
def find_substr (hay needle : List Nat) (icase : Bool) : Option Nat :=
  if !icase then strstr hay needle
  else
    let nlen := strlen needle
    if nlen = 0 then some 0
    else find_substr_loop needle nlen hay 0

/-! ## Specification vocabulary for the matcher -/

/-- Byte folding used by a comparison: ASCII `A-Z` to `a-z` when `icase`, identity
otherwise. -/
def fold (icase : Bool) (c : Nat) : Nat := if icase then tolower c else c

/-- The needle `n` occurs in the haystack `h` starting at index `i`, bytes compared after
`fold icase`. -/
def OccursAt (icase : Bool) (h n : List Nat) (i : Nat) : Prop :=
  i + n.length ≤ h.length ∧ ((h.drop i).take n.length).map (fold icase) = n.map (fold icase)

instance (icase : Bool) (h n : List Nat) (i : Nat) : Decidable (OccursAt icase h n i) := by
  unfold OccursAt; infer_instance

/-! ## Observable behaviour

A run of the program is described by the sequence of calls it makes to the functions
below, each with the values of its arguments, in the order of the calls. -/

/-- Bytes of a string literal. -/
def bytes (s : String) : List Nat := s.toList.map Char.toNat

/-- System and library calls that take a path. -/
inductive Sys where
  | lstat | realpath | opendir | fopen | open_ | fstat | mmap
  deriving DecidableEq

/-- One call made by the program. -/
inductive Event where
  /-- `printf`: the bytes written to standard output. -/
  | printf (text : List Nat)
  /-- `fprintf(stderr, ...)`: the bytes written to the error stream. -/
  | eprintf (text : List Nat)
  /-- `find_substr(hay, needle, icase)`. -/
  | find_substr (hay needle : List Nat) (icase : Bool)
  /-- `print_match(abspath, lineno, line)`. -/
  | print_match (abspath : List Nat) (lineno : Int) (line : List Nat)
  /-- A system or library call on the path `path`. -/
  | sys (call : Sys) (path : List Nat)
  /-- `malloc(size)`. -/
  | malloc (size : Nat)
  deriving DecidableEq

/-- Source `options_t`. -/
structure Options where
  root_dir : List Nat
  needle : List Nat
  ignore_case : Bool
  use_mmap : Bool

/-- What the system answers for one file that has been opened. -/
structure File where
  /-- The bytes of the file. -/
  content : List Nat
  /-- `st_mode` as `fstat` reports it. -/
  mode : Nat
  /-- `strerror(errno)` when `fstat` fails. -/
  fstat_err : Option (List Nat)
  /-- `strerror(errno)` when `mmap` fails. -/
  mmap_err : Option (List Nat)
  /-- Whether `malloc` succeeds for the line with this number. -/
  malloc_ok : Int → Bool
  /-- Whether `getline` can read the line with this number (no read or memory error). -/
  getline_ok : Int → Bool

/-- What the system answers to the calls of the program. -/
structure Env where
  /-- `PATH_MAX` of `<limits.h>`. -/
  PATH_MAX : Nat
  /-- Byte found at each index of an uninitialised buffer. -/
  junk : Nat → Nat
  /-- `lstat`: `st_mode` of the entry itself, or `strerror(errno)`. -/
  lstat : List Nat → Except (List Nat) Nat
  /-- `realpath`: the canonical absolute path, or failure. -/
  realpath : List Nat → Option (List Nat)
  /-- `opendir` and `readdir`: the names of the entries in order, or `strerror(errno)`. -/
  opendir : List Nat → Except (List Nat) (List (List Nat))
  /-- `fopen` and `open` for reading: the file, or `strerror(errno)`. -/
  openFile : List Nat → Except (List Nat) File

/-- Mask of the file type bits of `st_mode`, from `<sys/stat.h>`. -/
def S_IFMT : Nat := 0o170000

/-- File type of a socket. -/
def S_IFSOCK : Nat := 0o140000

/-- File type of a symbolic link. -/
def S_IFLNK : Nat := 0o120000

/-- File type of a regular file. -/
def S_IFREG : Nat := 0o100000

/-- File type of a block device. -/
def S_IFBLK : Nat := 0o060000

/-- File type of a directory. -/
def S_IFDIR : Nat := 0o040000

/-- File type of a character device. -/
def S_IFCHR : Nat := 0o020000

/-- File type of a FIFO. -/
def S_IFIFO : Nat := 0o010000

/-- `S_ISREG(m)` of `<sys/stat.h>`. -/
def S_ISREG (m : Nat) : Bool := m &&& S_IFMT == S_IFREG

/-- `S_ISDIR(m)` of `<sys/stat.h>`. -/
def S_ISDIR (m : Nat) : Bool := m &&& S_IFMT == S_IFDIR

/-- Decimal digits of a natural number, as bytes. -/
def decimal (n : Nat) : List Nat := (Nat.toDigits 10 n).map Char.toNat

/-- The conversion `%ld` of `printf`. -/
def fmt_ld (n : Int) : List Nat :=
  if n < 0 then 45 :: decimal n.natAbs else decimal n.toNat

/-! ## `print_match` -/

/-- Source `print_match(abspath, lineno, line)`: the calls it makes. -/
def print_match (abspath : List Nat) (lineno : Int) (line : List Nat) : List Event :=
  [Event.print_match abspath lineno line,
   Event.printf (cstr abspath ++ [58] ++ fmt_ld lineno ++ [58] ++ cstr line)] ++
  (if line.getD 0 0 ≠ 0 ∧ line.getD (strlen line - 1) 0 ≠ 10 then [Event.printf [10]] else [])

/-- The bytes a run writes to standard output. -/
def stdout : List Event → List Nat
  | [] => []
  | Event.printf text :: rest => text ++ stdout rest
  | _ :: rest => stdout rest

/-- The bytes a run writes to the error stream. -/
def stderr : List Event → List Nat
  | [] => []
  | Event.eprintf text :: rest => text ++ stderr rest
  | _ :: rest => stderr rest

/-! ## Buffers and `path_join` -/

/-- Writing the bytes `bs` into the buffer `buf` from index `i` on.  `none` when the write
would run past the end of the buffer (undefined behaviour in C). -/
def store (buf : List Nat) (i : Nat) (bs : List Nat) : Option (List Nat) :=
  if i + bs.length ≤ buf.length then some (buf.take i ++ bs ++ buf.drop (i + bs.length))
  else none

/-- C library `strcpy(dst, src)`: the string `src` and its terminator are written at the
start of `dst`. -/
def strcpy (dst src : List Nat) : Option (List Nat) := store dst 0 (cstr src ++ [0])

/-- C library `strcat(dst, src)`: the string `src` and its terminator are written over
the terminator of the string in `dst`. -/
def strcat (dst src : List Nat) : Option (List Nat) :=
  store dst (strlen dst) (cstr src ++ [0])

/-- Source `path_join(a, b, out, cap)`.  `out` is the caller's buffer as it is on entry;
the result is the return value together with the buffer on exit. -/
def path_join (a b out : List Nat) (cap : Nat) : Option (Int × List Nat) :=
  let la := strlen a
  let lb := strlen b
  let need := (la + 1 + lb + 1) % 2 ^ 64
  if need > cap then some (-1, out)
  else
    (strcpy out a).bind fun out1 =>
    (if la ≠ 0 ∧ out1.getD (la - 1) 0 ≠ 47 then
        (store out1 la [47]).bind fun o => store o (la + 1) [0]
      else some out1).bind fun out2 =>
    (strcat out2 b).bind fun out3 =>
    some (0, out3)

/-- The path that `path_join` assembles from the strings `a` and `b`: a separator is put
between them when `a` is non-empty and does not end with one. -/
def joined (a b : List Nat) : List Nat :=
  (if strlen a ≠ 0 ∧ (cstr a).getD (strlen a - 1) 0 ≠ 47 then cstr a ++ [47] else cstr a)
    ++ cstr b

/-! ## Line scanners -/

/-- C library `getline` on the unread rest of a stream: `none` at end of file, otherwise
the bytes up to and including the next newline (or up to end of file) and what is left
of the stream. -/
def getline : List Nat → Option (List Nat × List Nat)
  | [] => none
  | c :: rest =>
    if c = 10 then some ([10], rest)
    else
      match getline rest with
      | none => some ([c], [])
      | some (l, r) => some (c :: l, r)

/-- One call of `find_substr` on `line` followed, on a hit, by `print_match`: the body
shared by the loops of both scanners. -/
def check_line (abspath : List Nat) (opt : Options) (lineno : Int) (line : List Nat) :
    List Event :=
  Event.find_substr line opt.needle opt.ignore_case ::
    (if (find_substr line opt.needle opt.ignore_case).isSome then
      print_match abspath lineno line
    else [])

/-- The `for (;;)` loop of `scan_file_stream`: `stream` is the unread rest of the file,
`lineno` the counter on entry to the iteration.  Every iteration that does not leave the
loop consumes at least one byte, so `fuel` bounds the number of iterations. -/
def scan_stream_loop (abspath : List Nat) (opt : Options) (f : File) :
    Nat → List Nat → Int → List Event
  | 0, _, _ => []
  | fuel + 1, stream, lineno =>
    match (if f.getline_ok (lineno + 1) then getline stream else none) with
    | none => []
    | some (line, rest) =>
      check_line abspath opt (lineno + 1) (line ++ [0]) ++
        scan_stream_loop abspath opt f fuel rest (lineno + 1)

/-- Source `scan_file_stream(abspath, opt)`. -/
def scan_file_stream (env : Env) (abspath : List Nat) (opt : Options) : List Event :=
  Event.sys Sys.fopen (cstr abspath) ::
    match env.openFile (cstr abspath) with
    | .error reason =>
      [Event.eprintf (bytes "open failed: " ++ cstr abspath ++ bytes ": " ++ reason ++ [10])]
    | .ok f => scan_stream_loop abspath opt f (f.content.length + 1) f.content 0

/-- The `for (size_t i=0; i<len; ++i)` loop of `scan_file_mmap` with `k` iterations left
and loop index `i`.  The result is the calls made and, unless a failed `malloc` made the
function return, the values of `line_no` and `line_start` after the loop. -/
def scan_mmap_loop (abspath : List Nat) (opt : Options) (f : File) (buf : List Nat) :
    Nat → Nat → Int → Nat → List Event × Option (Int × Nat)
  | 0, _, line_no, line_start => ([], some (line_no, line_start))
  | k + 1, i, line_no, line_start =>
    if buf.getD i 0 = 10 then
      let L := i - line_start
      if f.malloc_ok line_no then
        let tmp := (buf.drop line_start).take L ++ [0]
        let r := scan_mmap_loop abspath opt f buf k (i + 1) (line_no + 1) (i + 1)
        (Event.malloc (L + 1) :: check_line abspath opt line_no tmp ++ r.1, r.2)
      else ([Event.malloc (L + 1)], none)
    else scan_mmap_loop abspath opt f buf k (i + 1) line_no line_start

/-- The treatment of the last line, the one without a newline, in `scan_file_mmap`. -/
def scan_mmap_tail (abspath : List Nat) (opt : Options) (f : File) (buf : List Nat)
    (len : Nat) (line_no : Int) (line_start : Nat) : List Event :=
  if line_start < len then
    let L := len - line_start
    Event.malloc (L + 1) ::
      (if f.malloc_ok line_no then
        check_line abspath opt line_no ((buf.drop line_start).take L ++ [0])
      else [])
  else []

/-- Source `scan_file_mmap(abspath, opt)`. -/
def scan_file_mmap (env : Env) (abspath : List Nat) (opt : Options) : List Event :=
  Event.sys Sys.open_ (cstr abspath) ::
    match env.openFile (cstr abspath) with
    | .error reason =>
      [Event.eprintf (bytes "open failed: " ++ cstr abspath ++ bytes ": " ++ reason ++ [10])]
    | .ok f =>
      Event.sys Sys.fstat (cstr abspath) ::
        match f.fstat_err with
        | some reason =>
          [Event.eprintf
            (bytes "fstat failed: " ++ cstr abspath ++ bytes ": " ++ reason ++ [10])]
        | none =>
          if !S_ISREG f.mode || f.content.length == 0 then []
          else
            let len := f.content.length
            Event.sys Sys.mmap (cstr abspath) ::
              match f.mmap_err with
              | some reason =>
                [Event.eprintf
                  (bytes "mmap failed: " ++ cstr abspath ++ bytes ": " ++ reason ++ [10])]
              | none =>
                let buf := f.content
                let r := scan_mmap_loop abspath opt f buf len 0 1 0
                match r.2 with
                | none => r.1
                | some (line_no, line_start) =>
                  r.1 ++ scan_mmap_tail abspath opt f buf len line_no line_start

/-! ## Records -/

/-- Text of a line as a record carries it: the string passed to `print_match`, without
its terminating newline if it has one. -/
def line_text (line : List Nat) : List Nat :=
  if (cstr line).getLast? = some 10 then (cstr line).dropLast else cstr line

/-- The match records of a run: line number and line text of every call of
`print_match`, in the order of the calls. -/
def records : List Event → List (Int × List Nat)
  | [] => []
  | Event.print_match _ lineno line :: rest => (lineno, line_text line) :: records rest
  | _ :: rest => records rest

/-- A regular file with the given content on which every call succeeds. -/
def File.plain (content : List Nat) : File :=
  { content := content, mode := S_IFREG, fstat_err := none, mmap_err := none,
    malloc_ok := fun _ => true, getline_ok := fun _ => true }

/-- A system in which every path names a regular file with the given content and every
call succeeds. -/
def Env.plain (content : List Nat) : Env :=
  { PATH_MAX := 4096, junk := fun _ => 0,
    lstat := fun _ => .ok S_IFREG, realpath := fun p => some p,
    opendir := fun _ => .ok [], openFile := fun _ => .ok (File.plain content) }

/-- Options of a run that searches for `needle`. -/
def Options.search (needle : List Nat) (ignore_case use_mmap : Bool) : Options :=
  { root_dir := [], needle := needle, ignore_case := ignore_case, use_mmap := use_mmap }

/-- The scanner selected by `use_mmap`, as `handle_entry` selects it. -/
def scan_file (env : Env) (abspath : List Nat) (opt : Options) : List Event :=
  if opt.use_mmap then scan_file_mmap env abspath opt else scan_file_stream env abspath opt

/-! ## Specification vocabulary for the scanners -/

/-- Logical lines of the text that follows an already read, newline-free run `cur`. -/
def logical_lines_from (cur : List Nat) : List Nat → List (List Nat)
  | [] => if cur = [] then [] else [cur]
  | c :: rest =>
    if c = 10 then cur :: logical_lines_from [] rest
    else logical_lines_from (cur ++ [c]) rest

/-- Logical lines of a file: the maximal byte runs between newline delimiters, between
the start of the file and the first delimiter, and between the last delimiter and the
end of a file that does not end with one; the delimiters are not part of the lines. -/
def logical_lines (content : List Nat) : List (List Nat) := logical_lines_from [] content

/-- Numbering of the items of a list, the first one getting `n`. -/
def number_from {α : Type} : Int → List α → List (Int × α)
  | _, [] => []
  | n, x :: xs => (n, x) :: number_from (n + 1) xs

/-- The needle `n` occurs somewhere in `h`, bytes compared after `fold icase`. -/
def contains (icase : Bool) (h n : List Nat) : Bool :=
  (List.range (h.length + 1)).any fun i => decide (OccursAt icase h n i)

/-- The record asked for a numbered line: none unless the text of the line contains the
needle.  The text of a line is what a C string holds of it, its bytes before the first
`0` (all of them if there is none). -/
def expect_line (needle : List Nat) (icase : Bool) (p : Int × List Nat) :
    Option (Int × List Nat) :=
  if contains icase (cstr p.2) (cstr needle) then some (p.1, cstr p.2) else none

/-- The records asked of a scan, in the order of the lines: one for each logical line
whose text contains the needle, with the 1-based number of the line and its text. -/
def expected_records (content needle : List Nat) (icase : Bool) : List (Int × List Nat) :=
  (number_from 1 (logical_lines content)).filterMap (expect_line needle icase)

/-- Number of logical lines as the specification counts them: the newline bytes, plus one
if the content is non-empty and does not end with a newline. -/
def line_count (content : List Nat) : Nat :=
  content.count 10 + (if content ≠ [] ∧ content.getLast? ≠ some 10 then 1 else 0)

/-! ## Directory walker -/

/-- Source `is_skippable(st)`, on `st->st_mode`. -/
def is_skippable (mode : Nat) : Bool :=
  if S_ISREG mode || S_ISDIR mode then false else true

/-- An uninitialised buffer of `n` bytes. -/
def Env.buffer (env : Env) (n : Nat) : List Nat := (List.range n).map env.junk

/-- The path `handle_entry` hands to a scanner: what `realpath` resolves `full` to, or,
when `realpath` fails, the string of `full` as `strncpy` copies it into `abspath`. -/
def resolve (env : Env) (full : List Nat) : List Nat :=
  match env.realpath (cstr full) with
  | some resolved => resolved
  | none => (cstr full).take (env.PATH_MAX - 1)

/-- Source `handle_entry(parent, name, opt)`: the calls it makes.  `walk_dir` is the
function declared by the prototype above it in the source. -/
def handle_entry (env : Env) (walk_dir : List Nat → Options → List Event)
    (parent name : List Nat) (opt : Options) : List Event :=
  match path_join parent name (env.buffer env.PATH_MAX) env.PATH_MAX with
  | none => []
  | some (ret, full) =>
    if ret ≠ 0 then
      [Event.eprintf (bytes "path too long: " ++ cstr parent ++ [47] ++ cstr name ++ [10])]
    else
      Event.sys Sys.lstat (cstr full) ::
        match env.lstat (cstr full) with
        | .error reason =>
          [Event.eprintf (bytes "lstat failed: " ++ cstr full ++ bytes ": " ++ reason ++ [10])]
        | .ok mode =>
          if S_ISDIR mode then
            if cstr name = [46] ∨ cstr name = [46, 46] then []
            else walk_dir full opt
          else if is_skippable mode then []
          else
            let abspath := resolve env full
            Event.sys Sys.realpath (cstr full) ::
              (if opt.use_mmap then scan_file_mmap env abspath opt
               else scan_file_stream env abspath opt)

/-- Source `walk_dir(dirpath, opt)`: the calls it makes.  `depth` bounds the nesting of
the recursion, which the source leaves to the depth of the directory tree. -/
def walk_dir (env : Env) : Nat → List Nat → Options → List Event
  | 0, _, _ => []
  | depth + 1, dirpath, opt =>
    Event.sys Sys.opendir (cstr dirpath) ::
      match env.opendir (cstr dirpath) with
      | .error reason =>
        [Event.eprintf
          (bytes "opendir failed: " ++ cstr dirpath ++ bytes ": " ++ reason ++ [10])]
      | .ok names =>
        names.flatMap fun name => handle_entry env (walk_dir env depth) dirpath name opt

/-- A small system: paths of at most 16 bytes, "d/sub" a directory, "d/l" a symbolic
link, every other path a regular file holding "x\n". -/
def Env.sample : Env :=
  { PATH_MAX := 16, junk := fun _ => 7,
    lstat := fun p =>
      if p = bytes "d/sub" then .ok S_IFDIR
      else if p = bytes "d/l" then .ok S_IFLNK else .ok S_IFREG,
    realpath := fun _ => none,
    opendir := fun p =>
      if p = bytes "d" then .ok [bytes ".", bytes "..", bytes "f", bytes "sub", bytes "l"]
      else .ok [bytes "g"],
    openFile := fun _ => .ok (File.plain (bytes "x\n")) }

/-! ## Specification vocabulary for the output and the diagnostics -/

/-- The haystacks of the calls of `find_substr` in a run, in the order of the calls. -/
def haystacks : List Event → List (List Nat)
  | [] => []
  | Event.find_substr hay _ _ :: rest => hay :: haystacks rest
  | _ :: rest => haystacks rest

/-- The lines handed to `print_match` in a run, in the order of the calls. -/
def printed : List Event → List (List Nat)
  | [] => []
  | Event.print_match _ _ line :: rest => line :: printed rest
  | _ :: rest => printed rest

/-- The text that `print_match` writes after "path:lineno:": the string of the line and,
when that string is non-empty and does not end with a newline, a newline. -/
def written (line : List Nat) : List Nat :=
  cstr line ++ (if cstr line ≠ [] ∧ (cstr line).getLast? ≠ some 10 then [10] else [])

/-- What each call of `print_match` in a run writes to standard output, in the order of
the calls. -/
def reports : List Event → List (List Nat)
  | [] => []
  | Event.print_match abspath lineno line :: rest =>
    stdout (print_match abspath lineno line) :: reports rest
  | _ :: rest => reports rest

/-- The bytes `r` are one complete output line for `abspath`: "path:lineno:" followed by
a non-empty text whose only newline byte is its last byte. -/
def CompleteLine (abspath : List Nat) (r : List Nat) : Prop :=
  ∃ (n : Int) (text : List Nat),
    r = cstr abspath ++ [58] ++ fmt_ld n ++ [58] ++ text ∧
      text ≠ [] ∧ text.count 10 = 1 ∧ text.getLast? = some 10

/-- The line numbers of the records `rs` are strictly increasing and at least `lo`. -/
def Ascending (lo : Int) (rs : List (Int × List Nat)) : Prop :=
  (rs.map Prod.fst).Pairwise (fun x y => x < y) ∧ ∀ r ∈ rs, lo ≤ r.1

/-- A diagnostic line of the form "<operation> failed: <path>: <reason>". -/
def diagnostic (operation path reason : List Nat) : List Nat :=
  operation ++ bytes " failed: " ++ path ++ bytes ": " ++ reason ++ [10]

/-- A system that refuses every call with "Permission denied". -/
def Env.denied : Env :=
  { PATH_MAX := 16, junk := fun _ => 0,
    lstat := fun _ => .error (bytes "Permission denied"),
    realpath := fun _ => none,
    opendir := fun _ => .error (bytes "Permission denied"),
    openFile := fun _ => .error (bytes "Permission denied") }

/-- A system in which every path names a regular file with the given content and every
call succeeds except `malloc`, which always fails. -/
def Env.starved (content : List Nat) : Env :=
  { PATH_MAX := 4096, junk := fun _ => 0,
    lstat := fun _ => .ok S_IFREG, realpath := fun p => some p,
    opendir := fun _ => .ok [],
    openFile := fun _ =>
      .ok { content := content, mode := S_IFREG, fstat_err := none, mmap_err := none,
            malloc_ok := fun _ => false, getline_ok := fun _ => true } }

/-! ## Auxiliary definitions of the proofs -/

/-- Segments of a text: the logical lines, each with whether a newline terminates it. -/
def segs_from (cur : List Nat) : List Nat → List (List Nat × Bool)
  | [] => if cur = [] then [] else [(cur, false)]
  | c :: rest =>
    if c = 10 then (cur, true) :: segs_from [] rest
    else segs_from (cur ++ [c]) rest

/-- The calls of a scan that treats the numbered segments one after the other. -/
def run_segs (g : Int → List Nat × Bool → List Event) :
    Int → List (List Nat × Bool) → List Event
  | _, [] => []
  | n, s :: ss => g n s ++ run_segs g (n + 1) ss

/-- What `scan_file_stream` does with one segment. -/
def stream_seg (abspath : List Nat) (opt : Options) (n : Int) (p : List Nat × Bool) :
    List Event :=
  check_line abspath opt n (p.1 ++ (if p.2 then [10] else []) ++ [0])

/-- What `scan_file_mmap` does with one segment. -/
def mmap_seg (abspath : List Nat) (opt : Options) (n : Int) (p : List Nat × Bool) :
    List Event :=
  Event.malloc (p.1.length + 1) :: check_line abspath opt n (p.1 ++ [0])

/-! ## Theorems

### C strings and the matcher -/

theorem cstr_nil : cstr [] = [] := rfl

theorem cstr_cons_zero (rest : List Nat) : cstr (0 :: rest) = [] := by
  simp [cstr]

theorem cstr_cons_ne (c : Nat) (rest : List Nat) (h : c ≠ 0) :
    cstr (c :: rest) = c :: cstr rest := by
  simp [cstr, List.takeWhile_cons, h]

theorem cstr_no_zero (s : List Nat) : ∀ c ∈ cstr s, c ≠ 0 := by
  intro c hc
  have := List.mem_takeWhile_imp hc
  simpa using this

theorem cstr_of_no_zero (s : List Nat) (h : ∀ c ∈ s, c ≠ 0) : cstr s = s := by
  unfold cstr
  rw [List.takeWhile_eq_self_iff]
  intro c hc
  simpa using h c hc

theorem cstr_initial (s : List Nat) : cstr s <+: s := List.takeWhile_prefix _

theorem getD_cstr (s : List Nat) (i : Nat) (h : i < strlen s) :
    s.getD i 0 = (cstr s).getD i 0 := by
  obtain ⟨t, ht⟩ := cstr_initial s
  have h' : i < (cstr s).length := h
  conv_lhs => rw [← ht]
  simp [List.getD_eq_getElem?_getD, List.getElem?_append_left h']

theorem tolower_zero_iff (c : Nat) : tolower c = 0 ↔ c = 0 := by
  unfold tolower; split <;> omega

theorem cstr_map_tolower (s : List Nat) : cstr (s.map tolower) = (cstr s).map tolower := by
  induction s with
  | nil => rfl
  | cons c rest ih =>
    by_cases hc : c = 0
    · subst hc; simp [cstr, tolower]
    · have : tolower c ≠ 0 := fun h => hc ((tolower_zero_iff c).1 h)
      rw [List.map_cons, cstr_cons_ne _ _ this, cstr_cons_ne _ _ hc, ih, List.map_cons]

theorem fold_false_map (l : List Nat) : l.map (fold false) = l := by
  have : fold false = id := by funext c; simp [fold]
  rw [this, List.map_id]

theorem fold_true_map (l : List Nat) : l.map (fold true) = l.map tolower := by
  have : fold true = tolower := by funext c; simp [fold]
  rw [this]

theorem occursAt_succ (ic : Bool) (c : Nat) (rest n : List Nat) (k : Nat) :
    OccursAt ic (c :: rest) n (k + 1) ↔ OccursAt ic rest n k := by
  unfold OccursAt
  simp only [List.length_cons, List.drop_succ_cons]
  constructor <;> rintro ⟨h1, h2⟩ <;> exact ⟨by omega, h2⟩

theorem occursAt_zero (h n : List Nat) : OccursAt false h n 0 ↔ n <+: h := by
  unfold OccursAt
  simp only [fold_false_map, List.drop_zero, Nat.zero_add]
  constructor
  · rintro ⟨_, h2⟩
    rw [List.prefix_iff_eq_take]; exact h2.symm
  · intro hp
    exact ⟨hp.length_le, (List.prefix_iff_eq_take.1 hp).symm⟩

theorem occursAt_nil (ic : Bool) (n : List Nat) (i : Nat) :
    OccursAt ic [] n i ↔ n = [] ∧ i = 0 := by
  unfold OccursAt
  constructor
  · rintro ⟨h1, _⟩
    simp only [List.length_nil, Nat.le_zero, Nat.add_eq_zero, List.length_eq_zero] at h1
    exact ⟨h1.2, h1.1⟩
  · rintro ⟨rfl, rfl⟩; simp

theorem occursAt_tolower (h n : List Nat) (i : Nat) :
    OccursAt true h n i ↔ OccursAt false (h.map tolower) (n.map tolower) i := by
  unfold OccursAt
  simp only [fold_false_map, fold_true_map, List.length_map, List.map_take, List.map_drop]

theorem strstr_from_some (n : List Nat) : ∀ (h : List Nat) (off i : Nat),
    strstr_from n h off = some i ↔
      ∃ k, i = off + k ∧ OccursAt false h n k ∧ ∀ j, j < k → ¬ OccursAt false h n j := by
  intro h
  induction h with
  | nil =>
    intro off i
    simp only [strstr_from, occursAt_nil]
    by_cases hn : n = []
    · simp only [hn, if_true, Option.some.injEq, true_and]
      constructor
      · rintro rfl; exact ⟨0, rfl, rfl, by simp⟩
      · rintro ⟨k, rfl, rfl, _⟩; rfl
    · simp [hn]
  | cons c rest ih =>
    intro off i
    rw [strstr_from]
    by_cases hp : n.isPrefixOf (c :: rest) = true
    · rw [if_pos hp]
      have h0 : OccursAt false (c :: rest) n 0 :=
        (occursAt_zero _ _).2 (List.isPrefixOf_iff_prefix.1 hp)
      constructor
      · intro e
        have e' : off = i := by simpa using e
        exact ⟨0, by omega, h0, by simp⟩
      · rintro ⟨k, rfl, _, hk⟩
        have : k = 0 := by
          by_contra hne
          exact hk 0 (Nat.pos_of_ne_zero hne) h0
        subst this; rfl
    · rw [if_neg hp, ih]
      have h0 : ¬ OccursAt false (c :: rest) n 0 := fun ho =>
        hp (List.isPrefixOf_iff_prefix.2 ((occursAt_zero _ _).1 ho))
      constructor
      · rintro ⟨k, rfl, hk, hmin⟩
        refine ⟨k + 1, by omega, (occursAt_succ _ _ _ _ _).2 hk, ?_⟩
        intro j hj
        cases j with
        | zero => exact h0
        | succ j =>
          rw [occursAt_succ]; exact hmin j (by omega)
      · rintro ⟨k, rfl, hk, hmin⟩
        cases k with
        | zero => exact absurd hk h0
        | succ k =>
          refine ⟨k, by omega, (occursAt_succ _ _ _ _ _).1 hk, ?_⟩
          intro j hj
          have := hmin (j + 1) (by omega)
          rwa [occursAt_succ] at this

theorem strstr_from_none (n : List Nat) : ∀ (h : List Nat) (off : Nat),
    strstr_from n h off = none ↔ ∀ k, ¬ OccursAt false h n k := by
  intro h
  induction h with
  | nil =>
    intro off
    simp only [strstr_from, occursAt_nil]
    by_cases hn : n = []
    · simp [hn]
    · simp [hn]
  | cons c rest ih =>
    intro off
    rw [strstr_from]
    by_cases hp : n.isPrefixOf (c :: rest) = true
    · rw [if_pos hp]
      have h0 : OccursAt false (c :: rest) n 0 :=
        (occursAt_zero _ _).2 (List.isPrefixOf_iff_prefix.1 hp)
      constructor
      · intro e; cases e
      · intro hall; exact absurd h0 (hall 0)
    · rw [if_neg hp, ih]
      have h0 : ¬ OccursAt false (c :: rest) n 0 := fun ho =>
        hp (List.isPrefixOf_iff_prefix.2 ((occursAt_zero _ _).1 ho))
      constructor
      · intro hall k
        cases k with
        | zero => exact h0
        | succ k => rw [occursAt_succ]; exact hall k
      · intro hall k
        have := hall (k + 1)
        rwa [occursAt_succ] at this

theorem tolower_zero : tolower 0 = 0 := by decide

theorem getD_map_tolower (l : List Nat) (j : Nat) :
    (l.map tolower).getD j 0 = tolower (l.getD j 0) := by
  simp only [List.getD_eq_getElem?_getD, List.getElem?_map]
  cases l[j]? <;> simp [tolower_zero]

theorem initial_iff_getD (n h : List Nat) :
    n <+: h ↔ n.length ≤ h.length ∧ ∀ j, j < n.length → h.getD j 0 = n.getD j 0 := by
  constructor
  · rintro ⟨t, rfl⟩
    refine ⟨by simp, ?_⟩
    intro j hj
    simp [List.getD_eq_getElem?_getD, List.getElem?_append_left hj]
  · rintro ⟨hlen, hget⟩
    rw [List.prefix_iff_eq_take]
    apply List.ext_getElem
    · simp [hlen]
    · intro j h1 h2
      have := hget j h1
      simp only [List.getD_eq_getElem?_getD] at this
      rw [List.getElem?_eq_getElem h1, List.getElem?_eq_getElem (by omega)] at this
      simp only [Option.getD_some] at this
      simp [this]

theorem memcasecmp_loop_eq_zero (a b : List Nat) : ∀ (k i : Nat),
    memcasecmp_loop a b k i = 0 ↔
      ∀ j, j < k → tolower (a.getD (i + j) 0) = tolower (b.getD (i + j) 0) := by
  intro k
  induction k with
  | zero => intro i; simp [memcasecmp_loop]
  | succ k ih =>
    intro i
    simp only [memcasecmp_loop]
    by_cases hd : (tolower (a.getD i 0) : Int) = (tolower (b.getD i 0) : Int)
    · rw [if_neg (by simpa using hd), ih]
      have hd' : tolower (a.getD i 0) = tolower (b.getD i 0) := by exact_mod_cast hd
      constructor
      · intro hall j hj
        cases j with
        | zero => simpa using hd'
        | succ j =>
          have := hall j (by omega)
          rwa [show i + 1 + j = i + (j + 1) by omega] at this
      · intro hall j hj
        have := hall (j + 1) (by omega)
        rwa [show i + (j + 1) = i + 1 + j by omega] at this
    · rw [if_pos hd]
      constructor
      · intro h0
        exact absurd (sub_eq_zero.1 h0) hd
      · intro hall
        have := hall 0 (by omega)
        simp only [Nat.add_zero] at this
        exact absurd (by exact_mod_cast this) hd

theorem memcasecmp_eq_zero (a b : List Nat) (n : Nat) :
    memcasecmp a b n = 0 ↔ ∀ j, j < n → tolower (a.getD j 0) = tolower (b.getD j 0) := by
  unfold memcasecmp
  rw [memcasecmp_loop_eq_zero]
  simp

theorem strstr_from_short (n : List Nat) (h : List Nat) (off : Nat)
    (hlen : h.length < n.length) : strstr_from n h off = none := by
  rw [strstr_from_none]
  intro k ho
  have := ho.1
  omega

/-- On strings at least as long as the needle, `memcasecmp` returning `0` is the folded
needle being a prefix of the folded string. -/
theorem memcasecmp_initial (p needle : List Nat) (hlen : strlen needle ≤ strlen p) :
    memcasecmp p needle (strlen needle) = 0 ↔
      (cstr needle).map tolower <+: (cstr p).map tolower := by
  rw [memcasecmp_eq_zero, initial_iff_getD]
  simp only [List.length_map, getD_map_tolower]
  constructor
  · intro hall
    refine ⟨hlen, ?_⟩
    intro j hj
    have hj' : j < strlen needle := hj
    rw [← getD_cstr p j (by omega), ← getD_cstr needle j hj']
    exact hall j hj'
  · rintro ⟨_, hall⟩ j hj
    rw [getD_cstr p j (by omega), getD_cstr needle j hj]
    exact hall j hj

theorem find_substr_loop_eq (needle : List Nat) (hn : strlen needle ≠ 0) :
    ∀ (hay : List Nat) (off : Nat),
      find_substr_loop needle (strlen needle) hay off =
        strstr_from ((cstr needle).map tolower) ((cstr hay).map tolower) off := by
  have hne : (cstr needle).map tolower ≠ [] := by
    intro h
    apply hn
    simpa [strlen] using h
  intro hay
  induction hay with
  | nil => intro off; simp [find_substr_loop, cstr_nil, strstr_from, hne]
  | cons c rest ih =>
    intro off
    rw [find_substr_loop]
    by_cases hc : c = 0
    · subst hc
      simp [cstr_cons_zero, strstr_from, hne]
    · rw [if_neg hc, cstr_cons_ne c rest hc, List.map_cons, strstr_from]
      have hfirst : ∀ t, (cstr needle).map tolower <+: tolower c :: t →
          tolower c = tolower (needle.getD 0 0) := by
        intro t hp
        have h0 := ((initial_iff_getD _ _).1 hp).2 0
          (by simpa [strlen] using Nat.pos_of_ne_zero hn)
        rw [getD_map_tolower, ← getD_cstr needle 0 (Nat.pos_of_ne_zero hn)] at h0
        simpa using h0
      by_cases h1 : tolower c = tolower (needle.getD 0 0)
      · rw [if_pos h1]
        by_cases h2 : strlen (c :: rest) < strlen needle
        · rw [if_pos h2]
          have hshort : ((cstr (c :: rest)).map tolower).length <
              ((cstr needle).map tolower).length := by
            simpa [strlen] using h2
          have := strstr_from_short _ _ off hshort
          rw [cstr_cons_ne c rest hc, List.map_cons, strstr_from] at this
          exact this.symm
        · rw [if_neg h2]
          have hp := memcasecmp_initial (c :: rest) needle (by omega)
          rw [cstr_cons_ne c rest hc, List.map_cons] at hp
          by_cases h3 : memcasecmp (c :: rest) needle (strlen needle) = 0
          · rw [if_pos h3, if_pos (List.isPrefixOf_iff_prefix.2 (hp.1 h3))]
          · rw [if_neg h3, if_neg (fun hh => h3 (hp.2 (List.isPrefixOf_iff_prefix.1 hh)))]
            exact ih (off + 1)
      · rw [if_neg h1, if_neg (fun hh => h1 (hfirst _ (List.isPrefixOf_iff_prefix.1 hh)))]
        exact ih (off + 1)

/-- The case-insensitive search is the case-sensitive search on the folded strings. -/
theorem find_substr_icase_eq (hay needle : List Nat) :
    find_substr hay needle true = strstr (hay.map tolower) (needle.map tolower) := by
  unfold find_substr strstr
  simp only [Bool.not_true, Bool.false_eq_true, if_false, cstr_map_tolower]
  by_cases hn : strlen needle = 0
  · rw [if_pos hn]
    have : cstr needle = [] := by simpa [strlen] using hn
    rw [this]
    cases h : (cstr hay).map tolower <;> simp [strstr_from]
  · rw [if_neg hn]
    exact find_substr_loop_eq needle hn hay 0

theorem find_substr_false_eq (hay needle : List Nat) :
    find_substr hay needle false = strstr hay needle := by
  simp [find_substr]

theorem strstr_some (hay needle : List Nat) (i : Nat) :
    strstr hay needle = some i ↔
      OccursAt false (cstr hay) (cstr needle) i ∧
        ∀ j, j < i → ¬ OccursAt false (cstr hay) (cstr needle) j := by
  unfold strstr
  rw [strstr_from_some]
  constructor
  · rintro ⟨k, hk, h1, h2⟩
    have : i = k := by omega
    subst this; exact ⟨h1, h2⟩
  · rintro ⟨h1, h2⟩
    exact ⟨i, by omega, h1, h2⟩

theorem strstr_none (hay needle : List Nat) :
    strstr hay needle = none ↔ ∀ i, ¬ OccursAt false (cstr hay) (cstr needle) i := by
  unfold strstr
  exact strstr_from_none _ _ _

theorem find_substr_some_iff (hay needle : List Nat) (icase : Bool) (i : Nat) :
    find_substr hay needle icase = some i ↔
      (OccursAt icase (cstr hay) (cstr needle) i ∧
        ∀ j, j < i → ¬ OccursAt icase (cstr hay) (cstr needle) j) := by
  cases icase with
  | false => rw [find_substr_false_eq]; exact strstr_some hay needle i
  | true =>
    rw [find_substr_icase_eq, strstr_some]
    simp only [cstr_map_tolower, ← occursAt_tolower]

theorem find_substr_none_iff (hay needle : List Nat) (icase : Bool) :
    find_substr hay needle icase = none ↔
      ∀ i, ¬ OccursAt icase (cstr hay) (cstr needle) i := by
  cases icase with
  | false => rw [find_substr_false_eq]; exact strstr_none hay needle
  | true =>
    rw [find_substr_icase_eq, strstr_none]
    simp only [cstr_map_tolower, ← occursAt_tolower]

/-- C3: find_substr returns the lowest index at which the needle occurs in the haystack
(bytes compared exactly when `icase` is false, after folding only `A-Z` to `a-z` when it
is true), and returns no match exactly when the needle occurs nowhere. -/
theorem find_substr_lowest_index (hay needle : List Nat) (icase : Bool) :
    (∀ i, find_substr hay needle icase = some i ↔
      (OccursAt icase (cstr hay) (cstr needle) i ∧
        ∀ j, j < i → ¬ OccursAt icase (cstr hay) (cstr needle) j)) ∧
    (find_substr hay needle icase = none ↔
      ∀ i, ¬ OccursAt icase (cstr hay) (cstr needle) i) ∧
    (∀ c, fold false c = c) ∧
    (∀ c, fold true c = if 65 ≤ c ∧ c ≤ 90 then c + 32 else c) :=
  ⟨find_substr_some_iff hay needle icase, find_substr_none_iff hay needle icase,
    fun c => by simp [fold], fun c => by simp [fold, tolower]⟩

/-- C4: the case-insensitive search is the case-sensitive search of the folded needle in
the folded haystack, match and position alike; a case-sensitive match is on exactly equal
bytes; "Foo" is found in "Foo" in both modes and in "foo" only when case is ignored. -/
theorem find_substr_icase_is_folded_search (h n : List Nat) :
    find_substr h n true = find_substr (h.map tolower) (n.map tolower) false ∧
    (∀ i, find_substr h n false = some i →
      i + strlen n ≤ strlen h ∧ ((cstr h).drop i).take (strlen n) = cstr n) ∧
    find_substr (bytes "Foo") (bytes "Foo") false = some 0 ∧
    find_substr (bytes "Foo") (bytes "Foo") true = some 0 ∧
    find_substr (bytes "foo") (bytes "Foo") true = some 0 ∧
    find_substr (bytes "foo") (bytes "Foo") false = none := by
  refine ⟨?_, ?_, by decide, by decide, by decide, by decide⟩
  · rw [find_substr_icase_eq, find_substr_false_eq]
  · intro i hi
    rw [find_substr_false_eq, strstr_some] at hi
    obtain ⟨⟨h1, h2⟩, _⟩ := hi
    rw [fold_false_map, fold_false_map] at h2
    exact ⟨h1, h2⟩

/-- C5: with the empty needle find_substr returns position 0 for every haystack, the
empty one included, in both modes. -/
theorem find_substr_empty_needle (hay junk : List Nat) (icase : Bool) :
    find_substr hay [] icase = some 0 ∧ find_substr hay (0 :: junk) icase = some 0 ∧
    find_substr [] [] icase = some 0 := by
  have key : ∀ needle, cstr needle = [] → find_substr hay needle icase = some 0 := by
    intro needle hn
    cases icase with
    | false =>
      rw [find_substr_false_eq, strstr, hn]
      cases cstr hay <;> simp [strstr_from]
    | true => simp [find_substr, strlen, hn]
  refine ⟨key [] cstr_nil, key _ (cstr_cons_zero junk), ?_⟩
  cases icase <;> decide

theorem cstr_append_zero (p t : List Nat) (hp : ∀ c ∈ p, c ≠ 0) :
    cstr (p ++ 0 :: t) = p := by
  induction p with
  | nil => simp [cstr]
  | cons c p ih =>
    have hc : c ≠ 0 := hp c (by simp)
    rw [List.cons_append, cstr_cons_ne _ _ hc, ih (fun x hx => hp x (by simp [hx]))]

/-! ### `path_join` -/

theorem store_append_left (p t bs : List Nat) :
    store (p ++ t) p.length bs =
      if bs.length ≤ t.length then some (p ++ bs ++ t.drop bs.length) else none := by
  unfold store
  by_cases h : bs.length ≤ t.length
  · rw [if_pos h, if_pos (by simp; omega)]
    simp [List.take_append_eq_append_take, List.drop_append_eq_append_drop]
  · rw [if_neg h, if_neg (by simp; omega)]

theorem strlen_append_zero (p t : List Nat) (hp : ∀ c ∈ p, c ≠ 0) :
    strlen (p ++ 0 :: t) = p.length := by
  unfold strlen; rw [cstr_append_zero p t hp]

theorem strcpy_eq (out a : List Nat) :
    strcpy out a =
      if strlen a + 1 ≤ out.length then some (cstr a ++ 0 :: out.drop (strlen a + 1))
      else none := by
  have := store_append_left [] out (cstr a ++ [0])
  simp only [List.nil_append, List.length_nil, List.length_append, List.length_singleton] at this
  unfold strcpy strlen
  rw [this]
  simp

theorem strcat_eq (p t b : List Nat) (hp : ∀ c ∈ p, c ≠ 0) :
    strcat (p ++ 0 :: t) b =
      if strlen b ≤ t.length then some (p ++ cstr b ++ 0 :: t.drop (strlen b)) else none := by
  unfold strcat
  rw [strlen_append_zero p t hp, store_append_left]
  simp only [List.length_append, List.length_singleton, List.length_cons, List.length_nil, strlen]
  by_cases h : (cstr b).length ≤ t.length
  · rw [if_pos (by omega), if_pos h]
    simp
  · rw [if_neg (by omega), if_neg h]

theorem slash_eq (p t : List Nat) :
    ((store (p ++ 0 :: t) p.length [47]).bind fun o => store o (p.length + 1) [0]) =
      if 1 ≤ t.length then some ((p ++ [47]) ++ 0 :: t.drop 1) else none := by
  rw [store_append_left]
  simp only [List.length_singleton, List.length_cons, List.length_nil]
  rw [if_pos (by omega)]
  simp only [Option.some_bind, List.drop_succ_cons, List.drop_zero]
  have e1 : p.length + 1 = (p ++ [47]).length := by simp
  rw [e1, store_append_left]
  simp

theorem getD_last_after_strcpy (a t : List Nat) (h0 : strlen a ≠ 0) :
    (cstr a ++ 0 :: t).getD (strlen a - 1) 0 = (cstr a).getD (strlen a - 1) 0 := by
  have : strlen a - 1 < (cstr a).length := by
    have : strlen a = (cstr a).length := rfl
    omega
  simp [List.getD_eq_getElem?_getD, List.getElem?_append_left, this]

theorem path_join_eq (a b out : List Nat) (cap : Nat) :
    path_join a b out cap =
      if (strlen a + 1 + strlen b + 1) % 2 ^ 64 > cap then some (-1, out)
      else if (joined a b).length + 1 ≤ out.length then
        some (0, joined a b ++ 0 :: out.drop ((joined a b).length + 1))
      else none := by
  unfold path_join
  simp only []
  by_cases hneed : (strlen a + 1 + strlen b + 1) % 2 ^ 64 > cap
  · rw [if_pos hneed, if_pos hneed]
  rw [if_neg hneed, if_neg hneed]
  have hA : ∀ c ∈ cstr a, c ≠ 0 := cstr_no_zero a
  have hla : strlen a = (cstr a).length := rfl
  have hlb : strlen b = (cstr b).length := rfl
  rw [strcpy_eq]
  by_cases hs : strlen a ≠ 0 ∧ (cstr a).getD (strlen a - 1) 0 ≠ 47
  · have hj : joined a b = cstr a ++ [47] ++ cstr b := by
      unfold joined; rw [if_pos hs]
    have hjl : (joined a b).length = strlen a + 1 + strlen b := by
      rw [hj]; simp [strlen]; omega
    by_cases h1 : strlen a + 1 ≤ out.length
    swap
    · rw [if_neg h1, if_neg (by omega)]; rfl
    rw [if_pos h1, Option.some_bind, getD_last_after_strcpy a _ hs.1, if_pos hs, hla, slash_eq]
    simp only [List.length_drop]
    by_cases h2 : 1 ≤ out.length - ((cstr a).length + 1)
    swap
    · rw [if_neg h2, if_neg (by omega)]; rfl
    rw [if_pos h2, Option.some_bind]
    have hz : ∀ c ∈ cstr a ++ [47], c ≠ 0 := by
      intro c hc
      rcases List.mem_append.1 hc with h | h
      · exact hA c h
      · simp at h; omega
    rw [strcat_eq _ _ _ hz]
    simp only [List.length_drop]
    by_cases h3 : strlen b ≤ out.length - ((cstr a).length + 1) - 1
    · rw [if_pos h3, if_pos (by omega), Option.some_bind, hj, List.drop_drop, List.drop_drop]
      have : (cstr a).length + 1 + (1 + strlen b) =
          (cstr a ++ [47] ++ cstr b).length + 1 := by
        simp [strlen]; omega
      rw [this]
    · rw [if_neg h3, if_neg (by omega)]; rfl
  · have hj : joined a b = cstr a ++ cstr b := by
      unfold joined; rw [if_neg hs]
    have hjl : (joined a b).length = strlen a + strlen b := by
      rw [hj]; simp [strlen]
    by_cases h1 : strlen a + 1 ≤ out.length
    swap
    · rw [if_neg h1, if_neg (by omega)]; rfl
    rw [if_pos h1, Option.some_bind]
    have hs' : ¬ (strlen a ≠ 0 ∧
        (cstr a ++ 0 :: List.drop (strlen a + 1) out).getD (strlen a - 1) 0 ≠ 47) := by
      rintro ⟨h0, hne⟩
      rw [getD_last_after_strcpy a _ h0] at hne
      exact hs ⟨h0, hne⟩
    rw [if_neg hs', Option.some_bind, strcat_eq _ _ _ hA]
    simp only [List.length_drop]
    by_cases h3 : strlen b ≤ out.length - (strlen a + 1)
    · rw [if_pos h3, if_pos (by omega), Option.some_bind, hj, List.drop_drop]
      have : strlen a + 1 + strlen b = (cstr a ++ cstr b).length + 1 := by
        simp [strlen]; omega
      rw [this]
    · rw [if_neg h3, if_neg (by omega)]; rfl

theorem joined_no_zero (a b : List Nat) : ∀ c ∈ joined a b, c ≠ 0 := by
  intro c hc
  unfold joined at hc
  rcases List.mem_append.1 hc with h | h
  · split at h
    · rcases List.mem_append.1 h with h | h
      · exact cstr_no_zero a c h
      · simp at h; omega
    · exact cstr_no_zero a c h
  · exact cstr_no_zero b c h

theorem getLast?_eq_getD (l : List Nat) (hl : l ≠ []) (v : Nat) :
    l.getLast? = some v ↔ l.getD (l.length - 1) 0 = v := by
  have hlen : l.length - 1 < l.length := by
    have := List.length_pos.2 hl; omega
  rw [List.getLast?_eq_getElem?, List.getD_eq_getElem?_getD, List.getElem?_eq_getElem hlen]
  simp

theorem joined_cases (a b : List Nat) :
    joined a b =
      if cstr a = [] then cstr b
      else if (cstr a).getLast? = some 47 then cstr a ++ cstr b
      else cstr a ++ [47] ++ cstr b := by
  unfold joined
  by_cases h0 : cstr a = []
  · have : strlen a = 0 := by simp [strlen, h0]
    simp [h0, this]
  · have hne : strlen a ≠ 0 := by simpa [strlen] using h0
    rw [if_neg h0]
    have := getLast?_eq_getD (cstr a) h0 47
    by_cases hl : (cstr a).getLast? = some 47
    · rw [if_pos hl, if_neg]
      rintro ⟨_, h⟩; exact h (this.1 hl)
    · rw [if_neg hl, if_pos]
      exact ⟨hne, fun h => hl (this.2 h)⟩

/-- C8 (amended): when path_join succeeds the output buffer holds the string `a ++ "/" ++ b`
if `a` is non-empty and does not end with '/', `a ++ b` if `a` ends with '/', and `b`
alone if `a` is empty. -/
theorem path_join_output (a b out : List Nat) (cap : Nat) (out' : List Nat)
    (h : path_join a b out cap = some (0, out')) :
    cstr out' =
      if cstr a = [] then cstr b
      else if (cstr a).getLast? = some 47 then cstr a ++ cstr b
      else cstr a ++ [47] ++ cstr b := by
  rw [path_join_eq] at h
  split at h
  · simp at h
  · split at h
    · simp only [Option.some.injEq, Prod.mk.injEq, true_and] at h
      rw [← h, cstr_append_zero _ _ (joined_no_zero a b), joined_cases]
    · cases h

/-- Witness of `path_join_output`: joining "ab" and "x" in a buffer of 8 bytes. -/
theorem path_join_output_witness :
    path_join (bytes "ab") (bytes "x") (List.replicate 8 7) 8
        = some (0, [97, 98, 47, 120, 0, 7, 7, 7]) ∧
      cstr [97, 98, 47, 120, 0, 7, 7, 7] = bytes "ab/x" :=
  ⟨by decide,
   (path_join_output (bytes "ab") (bytes "x") (List.replicate 8 7) 8
      [97, 98, 47, 120, 0, 7, 7, 7] (by decide)).trans (by decide)⟩

/-- C8 as stated fails for the empty parent: path_join succeeds, the parent does not end
with '/', and the buffer holds "x", not "/x". -/
theorem path_join_empty_parent_no_separator :
    path_join [] (bytes "x") (List.replicate 8 0) 8 = some (0, [120, 0, 0, 0, 0, 0, 0, 0]) ∧
      (cstr ([] : List Nat)).getLast? ≠ some 47 ∧
      cstr [120, 0, 0, 0, 0, 0, 0, 0] ≠ cstr [] ++ [47] ++ cstr (bytes "x") := by
  decide

/-- C9: for strings that fit a 64-bit address space and a buffer of at least `cap` bytes,
path_join fails exactly when `L + M + 2 > cap`, and when it fails the output buffer is
left as it was. -/
theorem path_join_fails_iff (a b out : List Nat) (cap : Nat)
    (hfit : strlen a + strlen b + 2 < 2 ^ 64) (hbuf : cap ≤ out.length) :
    ((path_join a b out cap).map Prod.fst = some (-1) ↔ strlen a + strlen b + 2 > cap) ∧
    (strlen a + strlen b + 2 > cap → path_join a b out cap = some (-1, out)) ∧
    (strlen a + strlen b + 2 ≤ cap → (path_join a b out cap).map Prod.fst = some 0) := by
  have hmod : (strlen a + 1 + strlen b + 1) % 2 ^ 64 = strlen a + strlen b + 2 := by
    rw [Nat.mod_eq_of_lt (by omega)]; omega
  have hjl : (joined a b).length + 1 ≤ strlen a + strlen b + 2 := by
    unfold joined
    split
    · simp [strlen]; omega
    · simp [strlen]
  rw [path_join_eq, hmod]
  by_cases hc : strlen a + strlen b + 2 > cap
  · simp [hc]
  · have h2 : (joined a b).length + 1 ≤ out.length := by omega
    simp [hc, h2]

/-- Witness of `path_join_fails_iff`: "ab" and "x" need 5 bytes and are given 4. -/
theorem path_join_fails_iff_witness :
    strlen (bytes "ab") + strlen (bytes "x") + 2 < 2 ^ 64 ∧
      4 ≤ (List.replicate 4 7).length ∧
      path_join (bytes "ab") (bytes "x") (List.replicate 4 7) 4
        = some (-1, List.replicate 4 7) :=
  ⟨by decide, by decide,
   (path_join_fails_iff (bytes "ab") (bytes "x") (List.replicate 4 7) 4
      (by decide) (by decide)).2.1 (by decide)⟩

/-! ### Line scanners -/

theorem logical_lines_from_eq (s : List Nat) : ∀ cur,
    logical_lines_from cur s = (segs_from cur s).map Prod.fst := by
  induction s with
  | nil => intro cur; simp only [logical_lines_from, segs_from]; split <;> simp
  | cons c rest ih =>
    intro cur
    simp only [logical_lines_from, segs_from]
    split
    · simp [ih]
    · exact ih _

theorem segs_no_newline (s : List Nat) : ∀ cur, 10 ∉ cur →
    ∀ p ∈ segs_from cur s, 10 ∉ p.1 := by
  induction s with
  | nil =>
    intro cur hc p hp
    simp only [segs_from] at hp
    split at hp
    · cases hp
    · simp at hp; subst hp; exact hc
  | cons c rest ih =>
    intro cur hc p hp
    simp only [segs_from] at hp
    split at hp
    · rcases List.mem_cons.1 hp with h | h
      · subst h; exact hc
      · exact ih [] (by simp) p h
    · rename_i hne
      refine ih (cur ++ [c]) ?_ p hp
      simp only [List.mem_append, List.mem_singleton, not_or]
      exact ⟨hc, fun h => hne h.symm⟩

theorem getline_segs (s : List Nat) : ∀ cur,
    match getline s with
    | none => s = []
    | some (line, rest) =>
      rest.length < s.length ∧
        ∃ l t, line = l ++ (if t then [10] else []) ∧
          segs_from cur s = (cur ++ l, t) :: segs_from [] rest := by
  induction s with
  | nil => intro cur; simp [getline]
  | cons c rest0 ih =>
    intro cur
    simp only [getline]
    by_cases hc : c = 10
    · subst hc
      simp only [if_true]
      refine ⟨by simp, [], true, by simp, ?_⟩
      simp [segs_from]
    · simp only [if_neg hc]
      have ih' := ih (cur ++ [c])
      cases hg : getline rest0 with
      | none =>
        rw [hg] at ih'
        simp only at ih'
        subst ih'
        simp only
        refine ⟨by simp, [c], false, by simp, ?_⟩
        simp [segs_from, hc]
      | some p =>
        obtain ⟨l', r⟩ := p
        rw [hg] at ih'
        simp only at ih' ⊢
        obtain ⟨hlen, l, t, hl, hs⟩ := ih'
        refine ⟨by simp; omega, c :: l, t, by simp [hl], ?_⟩
        simp only [segs_from, if_neg hc, hs]
        simp

theorem scan_stream_loop_eq (abspath : List Nat) (opt : Options) (f : File)
    (hg : ∀ n, f.getline_ok n = true) :
    ∀ (fuel : Nat) (stream : List Nat) (lineno : Int), stream.length < fuel →
      scan_stream_loop abspath opt f fuel stream lineno =
        run_segs (stream_seg abspath opt) (lineno + 1) (segs_from [] stream) := by
  intro fuel
  induction fuel with
  | zero => intro stream lineno h; omega
  | succ fuel ih =>
    intro stream lineno hlen
    rw [scan_stream_loop, hg, if_pos rfl]
    have hs := getline_segs stream []
    cases hgl : getline stream with
    | none =>
      rw [hgl] at hs
      simp only at hs
      subst hs
      simp [segs_from, run_segs]
    | some p =>
      obtain ⟨line, rest⟩ := p
      rw [hgl] at hs
      simp only at hs ⊢
      obtain ⟨hlt, l, t, hl, hseg⟩ := hs
      rw [hseg, run_segs, ih rest (lineno + 1) (by omega)]
      simp [stream_seg, hl]

theorem getD_mid (pre cur rest : List Nat) (c : Nat) :
    (pre ++ cur ++ c :: rest).getD (pre.length + cur.length) 0 = c := by
  rw [List.getD_eq_getElem?_getD, ← List.length_append, List.getElem?_append_right (le_refl _)]
  simp

theorem drop_take_mid (pre cur rest : List Nat) :
    ((pre ++ cur ++ rest).drop pre.length).take cur.length = cur := by
  rw [List.append_assoc, List.drop_left, List.take_left]

theorem scan_mmap_loop_eq (abspath : List Nat) (opt : Options) (f : File)
    (hm : ∀ n, f.malloc_ok n = true) (buf : List Nat) :
    ∀ (rest pre cur : List Nat) (line_no : Int), buf = pre ++ cur ++ rest →
      ∃ n ls,
        (scan_mmap_loop abspath opt f buf rest.length (pre.length + cur.length) line_no
            pre.length).2 = some (n, ls) ∧
        (scan_mmap_loop abspath opt f buf rest.length (pre.length + cur.length) line_no
            pre.length).1 ++ scan_mmap_tail abspath opt f buf buf.length n ls =
          run_segs (mmap_seg abspath opt) line_no (segs_from cur rest) := by
  intro rest
  induction rest with
  | nil =>
    intro pre cur line_no hbuf
    refine ⟨line_no, pre.length, rfl, ?_⟩
    simp only [List.length_nil, scan_mmap_loop, List.nil_append, scan_mmap_tail, segs_from]
    by_cases hc : cur = []
    · subst hc
      simp [hbuf, run_segs]
    · have hlen : pre.length < buf.length := by
        have := List.length_pos.2 hc
        rw [hbuf]; simp; omega
      have hL : buf.length - pre.length = cur.length := by rw [hbuf]; simp
      rw [if_pos hlen, if_neg hc, hm, if_pos rfl, hL]
      conv_lhs => rw [hbuf, drop_take_mid]
      simp [run_segs, mmap_seg]
  | cons c rest ih =>
    intro pre cur line_no hbuf
    have hget : buf.getD (pre.length + cur.length) 0 = c := by
      rw [hbuf]; exact getD_mid pre cur rest c
    simp only [List.length_cons, scan_mmap_loop, hget, segs_from]
    by_cases hc : c = 10
    · subst hc
      simp only [if_true, hm]
      have hbuf' : buf = (pre ++ cur ++ [10]) ++ [] ++ rest := by rw [hbuf]; simp
      obtain ⟨n, ls, h2, h1⟩ := ih (pre ++ cur ++ [10]) [] (line_no + 1) hbuf'
      have e : (pre ++ cur ++ [10]).length + ([] : List Nat).length
          = pre.length + cur.length + 1 := by simp; omega
      have e' : (pre ++ cur ++ [10]).length = pre.length + cur.length + 1 := by simp; omega
      rw [e, e'] at h2 h1
      refine ⟨n, ls, h2, ?_⟩
      have hL : pre.length + cur.length - pre.length = cur.length := by omega
      rw [hL]
      have ht : (buf.drop pre.length).take cur.length = cur := by
        rw [hbuf]; exact drop_take_mid pre cur _
      rw [ht, run_segs, ← h1]
      simp [mmap_seg]
    · simp only [if_neg hc]
      have hbuf' : buf = pre ++ (cur ++ [c]) ++ rest := by rw [hbuf]; simp
      obtain ⟨n, ls, h2, h1⟩ := ih pre (cur ++ [c]) line_no hbuf'
      have e : pre.length + (cur ++ [c]).length = pre.length + cur.length + 1 := by
        simp; omega
      rw [e] at h2 h1
      exact ⟨n, ls, h2, h1⟩

theorem fold_zero (ic : Bool) : fold ic 0 = 0 := by
  cases ic <;> simp [fold, tolower]

theorem fold_eq_newline (ic : Bool) (c : Nat) : fold ic c = 10 ↔ c = 10 := by
  cases ic
  · simp [fold]
  · simp only [fold, if_true, tolower]
    split <;> omega

theorem getD_map_fold (ic : Bool) (l : List Nat) (j : Nat) :
    (l.map (fold ic)).getD j 0 = fold ic (l.getD j 0) := by
  simp only [List.getD_eq_getElem?_getD, List.getElem?_map]
  cases l[j]? <;> simp [fold_zero]

theorem getD_drop (l : List Nat) (i j : Nat) : (l.drop i).getD j 0 = l.getD (i + j) 0 := by
  simp [List.getD_eq_getElem?_getD, List.getElem?_drop]

theorem occursAt_iff_getD (ic : Bool) (h n : List Nat) (i : Nat) :
    OccursAt ic h n i ↔
      i + n.length ≤ h.length ∧
        ∀ j, j < n.length → fold ic (h.getD (i + j) 0) = fold ic (n.getD j 0) := by
  unfold OccursAt
  constructor
  · rintro ⟨hlen, heq⟩
    refine ⟨hlen, ?_⟩
    have hp : n.map (fold ic) <+: (h.drop i).map (fold ic) := by
      rw [← heq, List.map_take]
      exact List.take_prefix _ _
    intro j hj
    have := ((initial_iff_getD _ _).1 hp).2 j (by simpa using hj)
    rwa [getD_map_fold, getD_map_fold, getD_drop] at this
  · rintro ⟨hlen, hget⟩
    refine ⟨hlen, ?_⟩
    have hp : n.map (fold ic) <+: (h.drop i).map (fold ic) := by
      rw [initial_iff_getD]
      refine ⟨by simp; omega, ?_⟩
      intro j hj
      rw [getD_map_fold, getD_map_fold, getD_drop]
      exact hget j (by simpa using hj)
    have := List.prefix_iff_eq_take.1 hp
    rw [List.length_map] at this
    rw [this, List.map_take]

theorem exists_occursAt_nil (ic : Bool) (h : List Nat) : ∃ i, OccursAt ic h [] i :=
  ⟨0, by simp [OccursAt]⟩

theorem getD_append_left' (l t : List Nat) (j : Nat) (hj : j < l.length) :
    (l ++ t).getD j 0 = l.getD j 0 := by
  simp [List.getD_eq_getElem?_getD, List.getElem?_append_left hj]

/-- A needle without a newline byte occurs in `l ++ "\n"` exactly where it occurs in `l`. -/
theorem occursAt_append_newline (ic : Bool) (l n : List Nat) (hn : 10 ∉ n) (hne : n ≠ [])
    (i : Nat) : OccursAt ic (l ++ [10]) n i ↔ OccursAt ic l n i := by
  rw [occursAt_iff_getD, occursAt_iff_getD]
  have hpos : 0 < n.length := List.length_pos.2 hne
  constructor
  · rintro ⟨hlen, hget⟩
    simp only [List.length_append, List.length_singleton] at hlen
    have hlt : i + n.length ≤ l.length := by
      by_contra hcon
      have heq : i + (n.length - 1) = l.length := by omega
      have := hget (n.length - 1) (by omega)
      rw [heq, List.getD_eq_getElem?_getD, List.getElem?_append_right (le_refl _)] at this
      simp only [Nat.sub_self, List.getElem?_cons_zero, Option.getD_some] at this
      have h10 : fold ic 10 = 10 := (fold_eq_newline ic 10).2 rfl
      rw [h10] at this
      have h2 := (fold_eq_newline ic _).1 this.symm
      apply hn
      rw [← h2, List.getD_eq_getElem?_getD, List.getElem?_eq_getElem (by omega)]
      simp
    refine ⟨hlt, ?_⟩
    intro j hj
    rw [← getD_append_left' l [10] (i + j) (by omega)]
    exact hget j hj
  · rintro ⟨hlen, hget⟩
    refine ⟨by simp; omega, ?_⟩
    intro j hj
    rw [getD_append_left' l [10] (i + j) (by omega)]
    exact hget j hj

theorem exists_occursAt_append_newline (ic : Bool) (l n : List Nat) (hn : 10 ∉ n) :
    (∃ i, OccursAt ic (l ++ [10]) n i) ↔ ∃ i, OccursAt ic l n i := by
  by_cases hne : n = []
  · subst hne
    exact ⟨fun _ => exists_occursAt_nil ic l, fun _ => exists_occursAt_nil ic _⟩
  · constructor
    · rintro ⟨i, hi⟩; exact ⟨i, (occursAt_append_newline ic l n hn hne i).1 hi⟩
    · rintro ⟨i, hi⟩; exact ⟨i, (occursAt_append_newline ic l n hn hne i).2 hi⟩

theorem contains_iff (ic : Bool) (h n : List Nat) :
    contains ic h n = true ↔ ∃ i, OccursAt ic h n i := by
  unfold contains
  simp only [List.any_eq_true, List.mem_range, decide_eq_true_eq]
  constructor
  · rintro ⟨i, _, hi⟩; exact ⟨i, hi⟩
  · rintro ⟨i, hi⟩
    exact ⟨i, by have := hi.1; omega, hi⟩

theorem find_substr_isSome (hay needle : List Nat) (icase : Bool) :
    (find_substr hay needle icase).isSome = contains icase (cstr hay) (cstr needle) := by
  rw [Bool.eq_iff_iff, contains_iff]
  constructor
  · intro h
    obtain ⟨i, hi⟩ := Option.isSome_iff_exists.1 h
    exact ⟨i, ((find_substr_some_iff _ _ _ _).1 hi).1⟩
  · rintro ⟨i, hi⟩
    cases hf : find_substr hay needle icase with
    | none => exact absurd hi ((find_substr_none_iff _ _ _).1 hf i)
    | some _ => rfl

theorem cstr_append_of_no_zero (l t : List Nat) (hl : ∀ c ∈ l, c ≠ 0) :
    cstr (l ++ t) = l ++ cstr t := by
  induction l with
  | nil => rfl
  | cons c l ih =>
    rw [List.cons_append, cstr_cons_ne _ _ (hl c (by simp)),
      ih (fun x hx => hl x (by simp [hx])), List.cons_append]

theorem cstr_append_of_zero (l t : List Nat) (hl : 0 ∈ l) : cstr (l ++ t) = cstr l := by
  induction l with
  | nil => cases hl
  | cons c l ih =>
    by_cases hc : c = 0
    · subst hc; rw [List.cons_append, cstr_cons_zero, cstr_cons_zero]
    · have : 0 ∈ l := by
        rcases List.mem_cons.1 hl with h | h
        · exact absurd h.symm hc
        · exact h
      rw [List.cons_append, cstr_cons_ne _ _ hc, cstr_cons_ne _ _ hc, ih this]

theorem cstr_append_terminator (l t : List Nat) : cstr (l ++ 0 :: t) = cstr l := by
  by_cases hl : 0 ∈ l
  · exact cstr_append_of_zero l _ hl
  · have hl' : ∀ c ∈ l, c ≠ 0 := fun c hc h => hl (h ▸ hc)
    rw [cstr_append_zero l t hl', cstr_of_no_zero l hl']

theorem cstr_subset (l : List Nat) : ∀ c ∈ cstr l, c ∈ l :=
  fun _ hc => (cstr_initial l).subset hc

theorem getLast?_ne_of_not_mem (l : List Nat) (v : Nat) (h : v ∉ l) : l.getLast? ≠ some v := by
  intro hl
  exact h (List.mem_of_getLast?_eq_some hl)

/-- The string of a line that `scan_file_stream` reads: the text of the line, followed by
the newline when the line has one and holds no `0` byte. -/
theorem cstr_stream_line (l : List Nat) (t : Bool) :
    cstr (l ++ (if t then [10] else []) ++ [0]) =
      if t = true ∧ 0 ∉ l then l ++ [10] else cstr l := by
  cases t with
  | false => simpa using cstr_append_terminator l []
  | true =>
    by_cases hl : 0 ∈ l
    · simp only [if_true, hl, true_and, not_true_eq_false, if_false, List.append_assoc]
      exact cstr_append_of_zero l _ hl
    · have hl' : ∀ c ∈ l, c ≠ 0 := fun c hc h => hl (h ▸ hc)
      simp only [if_true, hl, true_and, not_false_eq_true, List.append_assoc]
      rw [cstr_append_of_no_zero l _ hl']
      simp [cstr]

theorem line_text_stream (l : List Nat) (t : Bool) (hl : 10 ∉ l) :
    line_text (l ++ (if t then [10] else []) ++ [0]) = cstr l := by
  unfold line_text
  rw [cstr_stream_line]
  by_cases h : t = true ∧ 0 ∉ l
  · rw [if_pos h]
    have hl' : ∀ c ∈ l, c ≠ 0 := fun c hc hz => h.2 (hz ▸ hc)
    simp [cstr_of_no_zero l hl']
  · rw [if_neg h, if_neg (getLast?_ne_of_not_mem _ _ (fun hm => hl (cstr_subset l _ hm)))]

theorem line_text_mmap (l : List Nat) (hl : 10 ∉ l) : line_text (l ++ [0]) = cstr l := by
  have := line_text_stream l false hl
  simpa using this

theorem contains_stream_line (ic : Bool) (l n : List Nat) (t : Bool) (hn : 10 ∉ n) :
    contains ic (cstr (l ++ (if t then [10] else []) ++ [0])) n = contains ic (cstr l) n := by
  rw [cstr_stream_line]
  by_cases h : t = true ∧ 0 ∉ l
  · rw [if_pos h]
    have hl' : ∀ c ∈ l, c ≠ 0 := fun c hc hz => h.2 (hz ▸ hc)
    rw [cstr_of_no_zero l hl', Bool.eq_iff_iff, contains_iff, contains_iff]
    exact exists_occursAt_append_newline ic l n hn
  · rw [if_neg h]

theorem records_append (a b : List Event) : records (a ++ b) = records a ++ records b := by
  induction a with
  | nil => rfl
  | cons e a ih => cases e <;> simp [records, ih]

theorem records_print_match (abspath : List Nat) (n : Int) (line : List Nat) :
    records (print_match abspath n line) = [(n, line_text line)] := by
  unfold print_match
  split <;> simp [records]

theorem records_check_line (abspath : List Nat) (opt : Options) (n : Int) (line : List Nat) :
    records (check_line abspath opt n line) =
      if contains opt.ignore_case (cstr line) (cstr opt.needle) then [(n, line_text line)]
      else [] := by
  unfold check_line
  rw [find_substr_isSome]
  by_cases h : contains opt.ignore_case (cstr line) (cstr opt.needle) = true
  · rw [if_pos h, if_pos h]
    exact records_print_match abspath n line
  · rw [if_neg h, if_neg h]
    rfl

theorem records_stream_seg (abspath : List Nat) (opt : Options) (n : Int)
    (p : List Nat × Bool) (hl : 10 ∉ p.1) (hn : 10 ∉ cstr opt.needle) :
    records (stream_seg abspath opt n p) =
      (expect_line opt.needle opt.ignore_case (n, p.1)).toList := by
  unfold stream_seg expect_line
  rw [records_check_line, contains_stream_line _ _ _ _ hn, line_text_stream _ _ hl]
  split <;> rfl

theorem records_mmap_seg (abspath : List Nat) (opt : Options) (n : Int)
    (p : List Nat × Bool) (hl : 10 ∉ p.1) :
    records (mmap_seg abspath opt n p) =
      (expect_line opt.needle opt.ignore_case (n, p.1)).toList := by
  unfold mmap_seg expect_line
  show records (check_line abspath opt n (p.1 ++ [0])) = _
  rw [records_check_line, cstr_append_terminator, line_text_mmap _ hl]
  split <;> rfl

theorem records_run_segs (g : Int → List Nat × Bool → List Event) (needle : List Nat)
    (icase : Bool) (segs : List (List Nat × Bool))
    (hg : ∀ n, ∀ p ∈ segs, records (g n p) = (expect_line needle icase (n, p.1)).toList) :
    ∀ n, records (run_segs g n segs) =
      (number_from n (segs.map Prod.fst)).filterMap (expect_line needle icase) := by
  induction segs with
  | nil => intro n; rfl
  | cons p segs ih =>
    intro n
    rw [run_segs, records_append, hg n p (by simp),
      ih (fun m q hq => hg m q (by simp [hq])) (n + 1)]
    simp only [List.map_cons, number_from, List.filterMap_cons]
    cases expect_line needle icase (n, p.1) <;> rfl

theorem scan_file_stream_plain (content abspath : List Nat) (opt : Options) :
    scan_file_stream (Env.plain content) abspath opt =
      Event.sys Sys.fopen (cstr abspath) ::
        run_segs (stream_seg abspath opt) 1 (segs_from [] content) := by
  unfold scan_file_stream
  simp only [Env.plain]
  rw [scan_stream_loop_eq abspath opt (File.plain content) (fun _ => rfl) _ _ 0
    (by simp [File.plain])]
  rfl

theorem scan_file_mmap_plain (content abspath : List Nat) (opt : Options) :
    scan_file_mmap (Env.plain content) abspath opt =
      Event.sys Sys.open_ (cstr abspath) :: Event.sys Sys.fstat (cstr abspath) ::
        (if content = [] then []
         else Event.sys Sys.mmap (cstr abspath) ::
           run_segs (mmap_seg abspath opt) 1 (segs_from [] content)) := by
  unfold scan_file_mmap
  simp only [Env.plain, File.plain]
  have hreg : S_ISREG S_IFREG = true := by decide
  by_cases hc : content = []
  · subst hc; simp
  · have hlen : (content.length == 0) = false := by
      simpa using hc
    rw [if_neg hc]
    simp only [hreg, hlen, Bool.not_true, Bool.or_self, Bool.false_eq_true, if_false]
    obtain ⟨n, ls, h2, h1⟩ := scan_mmap_loop_eq abspath opt (File.plain content)
      (fun _ => rfl) content content [] [] 1 (by simp)
    simp only [List.length_nil, Nat.add_zero, File.plain] at h2 h1
    rw [h2]
    simp only
    rw [h1]

theorem records_scan_file_stream (content abspath : List Nat) (opt : Options)
    (hn : 10 ∉ cstr opt.needle) :
    records (scan_file_stream (Env.plain content) abspath opt) =
      expected_records content opt.needle opt.ignore_case := by
  rw [scan_file_stream_plain]
  show records (run_segs _ 1 _) = _
  rw [records_run_segs _ opt.needle opt.ignore_case _
    (fun n p hp => records_stream_seg abspath opt n p
      (segs_no_newline content [] (by simp) p hp) hn)]
  rw [expected_records, logical_lines, logical_lines_from_eq]

theorem records_scan_file_mmap (content abspath : List Nat) (opt : Options) :
    records (scan_file_mmap (Env.plain content) abspath opt) =
      expected_records content opt.needle opt.ignore_case := by
  rw [scan_file_mmap_plain]
  by_cases hc : content = []
  · subst hc; rfl
  · rw [if_neg hc]
    show records (run_segs _ 1 _) = _
    rw [records_run_segs _ opt.needle opt.ignore_case _
      (fun n p hp => records_mmap_seg abspath opt n p
        (segs_no_newline content [] (by simp) p hp))]
    rw [expected_records, logical_lines, logical_lines_from_eq]

theorem number_from_fst {α : Type} (l : List α) : ∀ n : Int,
    (number_from n l).map Prod.fst = (List.range l.length).map (fun (i : Nat) => (i : Int) + n) := by
  induction l with
  | nil => intro n; rfl
  | cons x xs ih =>
    intro n
    rw [number_from, List.map_cons, ih, List.length_cons, List.range_succ_eq_map,
      List.map_cons, List.map_map]
    simp only [Nat.cast_zero, zero_add, List.cons.injEq, true_and]
    apply List.map_congr_left
    intro i _
    simp only [Function.comp, Nat.succ_eq_add_one, Nat.cast_add, Nat.cast_one]
    omega

theorem contains_nil (ic : Bool) (h : List Nat) : contains ic h [] = true :=
  (contains_iff ic h []).2 (exists_occursAt_nil ic h)

theorem expected_records_fst_of_empty (content needle : List Nat) (ic : Bool)
    (hn : cstr needle = []) :
    (expected_records content needle ic).map Prod.fst =
      (List.range (logical_lines content).length).map (fun (i : Nat) => (i : Int) + 1) := by
  unfold expected_records
  rw [← number_from_fst]
  generalize (1 : Int) = n
  induction logical_lines content generalizing n with
  | nil => rfl
  | cons l ls ih =>
    simp only [number_from, List.filterMap_cons, expect_line, hn, contains_nil, if_true,
      List.map_cons, ih]

theorem getLast?_append_cons (cur rest : List Nat) (c : Nat) :
    (cur ++ c :: rest).getLast? = (c :: rest).getLast? := by
  rw [List.getLast?_append]
  cases h : (c :: rest).getLast? with
  | none => simp at h
  | some v => simp

theorem logical_lines_from_length (s : List Nat) : ∀ cur, 10 ∉ cur →
    (logical_lines_from cur s).length =
      s.count 10 + (if cur ++ s ≠ [] ∧ (cur ++ s).getLast? ≠ some 10 then 1 else 0) := by
  induction s with
  | nil =>
    intro cur hc
    simp only [logical_lines_from, List.append_nil, List.count_nil, Nat.zero_add]
    by_cases h : cur = []
    · simp [h]
    · rw [if_neg h, if_pos ⟨h, getLast?_ne_of_not_mem cur 10 hc⟩]
      rfl
  | cons c rest ih =>
    intro cur hc
    simp only [logical_lines_from]
    by_cases h10 : c = 10
    · subst h10
      rw [if_pos rfl, List.length_cons, ih [] (by simp), getLast?_append_cons]
      simp only [List.nil_append, List.count_cons_self]
      cases rest with
      | nil => simp
      | cons d rest' =>
        have e : (10 :: d :: rest').getLast? = (d :: rest').getLast? := by
          simp [List.getLast?_cons_cons]
        rw [e]
        simp
        omega
    · rw [if_neg h10, ih (cur ++ [c])
        (by simp only [List.mem_append, List.mem_singleton, not_or]
            exact ⟨hc, fun h => h10 h.symm⟩)]
      have e : cur ++ [c] ++ rest = cur ++ c :: rest := by simp
      rw [e, List.count_cons_of_ne (fun h => h10 h.symm)]

theorem logical_lines_length (content : List Nat) :
    (logical_lines content).length = line_count content := by
  unfold logical_lines line_count
  rw [logical_lines_from_length content [] (by simp)]
  simp

/-! ### Directory walker -/

theorem isdir_not_isreg (mode : Nat) (h : S_ISDIR mode = true) : S_ISREG mode = false := by
  unfold S_ISDIR at h
  unfold S_ISREG
  have h' : mode &&& S_IFMT = S_IFDIR := by simpa using h
  rw [h']
  decide

theorem handle_entry_eq (env : Env) (walk : List Nat → Options → List Event)
    (parent name : List Nat) (opt : Options) (full : List Nat) (mode : Nat)
    (hj : path_join parent name (env.buffer env.PATH_MAX) env.PATH_MAX = some (0, full))
    (hl : env.lstat (cstr full) = .ok mode) :
    handle_entry env walk parent name opt =
      Event.sys Sys.lstat (cstr full) ::
        (if S_ISDIR mode then
          (if cstr name = [46] ∨ cstr name = [46, 46] then [] else walk full opt)
        else if S_ISREG mode then
          Event.sys Sys.realpath (cstr full) :: scan_file env (resolve env full) opt
        else []) := by
  unfold handle_entry
  rw [hj]
  simp only [ne_eq, not_true_eq_false, if_false, hl]
  by_cases hd : S_ISDIR mode = true
  · simp only [hd, if_true]
  · have hd' : S_ISDIR mode = false := by simpa using hd
    simp only [hd', Bool.false_eq_true, if_false, is_skippable, Bool.or_false, scan_file]
    by_cases hr : S_ISREG mode = true
    · simp [hr]
    · have hr' : S_ISREG mode = false := by simpa using hr
      simp [hr']

/-- C10: for an entry whose path is joined and whose kind `lstat` reports, handle_entry
recurses with walk_dir exactly when the entry is a directory named neither "." nor "..",
hands the entry to a scanner exactly when it is a regular file, and does neither for any
other kind (symbolic link, device, socket, FIFO). -/
theorem handle_entry_classifies (env : Env) (walk : List Nat → Options → List Event)
    (parent name : List Nat) (opt : Options) (full : List Nat) (mode : Nat)
    (hj : path_join parent name (env.buffer env.PATH_MAX) env.PATH_MAX = some (0, full))
    (hl : env.lstat (cstr full) = .ok mode) :
    (S_ISDIR mode = true → cstr name ≠ [46] → cstr name ≠ [46, 46] →
      handle_entry env walk parent name opt =
        Event.sys Sys.lstat (cstr full) :: walk full opt) ∧
    (S_ISDIR mode = true → (cstr name = [46] ∨ cstr name = [46, 46]) →
      handle_entry env walk parent name opt = [Event.sys Sys.lstat (cstr full)]) ∧
    (S_ISREG mode = true →
      handle_entry env walk parent name opt =
        Event.sys Sys.lstat (cstr full) :: Event.sys Sys.realpath (cstr full) ::
          scan_file env (resolve env full) opt) ∧
    (S_ISDIR mode = false → S_ISREG mode = false →
      handle_entry env walk parent name opt = [Event.sys Sys.lstat (cstr full)]) ∧
    (S_ISDIR mode = true → S_ISREG mode = false) ∧
    (mode &&& S_IFMT ∈ [S_IFLNK, S_IFCHR, S_IFBLK, S_IFSOCK, S_IFIFO] →
      S_ISDIR mode = false ∧ S_ISREG mode = false) := by
  have key := handle_entry_eq env walk parent name opt full mode hj hl
  refine ⟨?_, ?_, ?_, ?_, isdir_not_isreg mode, ?_⟩
  · intro hd h1 h2
    rw [key, if_pos hd, if_neg (by simp [h1, h2])]
  · intro hd h
    rw [key, if_pos hd, if_pos h]
  · intro hr
    have hd : S_ISDIR mode = false := by
      cases h : S_ISDIR mode with
      | false => rfl
      | true => rw [isdir_not_isreg mode h] at hr; cases hr
    rw [key, hd, if_neg (by simp), if_pos hr]
  · intro hd hr
    rw [key, hd, hr]
    simp
  · intro hm
    unfold S_ISDIR S_ISREG
    simp only [List.mem_cons, List.mem_singleton, List.not_mem_nil, or_false] at hm
    rcases hm with h | h | h | h | h <;> rw [h] <;> decide

/-- Witness of `handle_entry_classifies`: the symbolic link "d/l" of the sample system is
neither opened nor walked into. -/
theorem handle_entry_classifies_witness :
    path_join (bytes "d") (bytes "l") (Env.sample.buffer Env.sample.PATH_MAX)
        Env.sample.PATH_MAX
      = some (0, bytes "d/l" ++ 0 :: List.replicate 12 7) ∧
    Env.sample.lstat (cstr (bytes "d/l" ++ 0 :: List.replicate 12 7)) = .ok S_IFLNK ∧
    handle_entry Env.sample (walk_dir Env.sample 8) (bytes "d") (bytes "l")
        (Options.search (bytes "x") false true)
      = [Event.sys Sys.lstat (cstr (bytes "d/l" ++ 0 :: List.replicate 12 7))] :=
  ⟨by decide, by rfl,
   (handle_entry_classifies Env.sample (walk_dir Env.sample 8) (bytes "d") (bytes "l")
      (Options.search (bytes "x") false true) (bytes "d/l" ++ 0 :: List.replicate 12 7)
      S_IFLNK (by decide) (by rfl)).2.2.2.1 (by decide) (by decide)⟩

/-! ### Records of a scan -/

theorem records_scan_file (content abspath needle : List Nat) (icase use_mmap : Bool)
    (hn : 10 ∉ cstr needle) :
    records (scan_file (Env.plain content) abspath (Options.search needle icase use_mmap)) =
      expected_records content needle icase := by
  unfold scan_file
  cases use_mmap with
  | true => exact records_scan_file_mmap content abspath (Options.search needle icase true)
  | false =>
    exact records_scan_file_stream content abspath (Options.search needle icase false) hn

/-- C1 at the failing input: for the file "a\n" and the needle "a\n", scan_file_stream
reports line 1 with text "a" and scan_file_mmap reports nothing. -/
theorem scanners_differ_on_newline_needle :
    records (scan_file_stream (Env.plain (bytes "a\n")) (bytes "p")
        (Options.search (bytes "a\n") false false)) = [(1, bytes "a")] ∧
    records (scan_file_mmap (Env.plain (bytes "a\n")) (bytes "p")
        (Options.search (bytes "a\n") false true)) = [] := by
  decide

/-- C2 (amended): for every file content and every needle without a newline byte, under
either strategy the records are exactly, in order, one for each logical line whose text
before its first `0` byte contains the needle (with ASCII case folding when ignore_case
is set), carrying the 1-based number of the line and that text. -/
theorem scan_reports_matching_lines (content abspath needle : List Nat)
    (icase use_mmap : Bool) (hn : 10 ∉ cstr needle) :
    records (scan_file (Env.plain content) abspath (Options.search needle icase use_mmap)) =
      (number_from 1 (logical_lines content)).filterMap (fun p =>
        if contains icase (cstr p.2) (cstr needle) then some (p.1, cstr p.2) else none) :=
  records_scan_file content abspath needle icase use_mmap hn

/-- Witness of `scan_reports_matching_lines`: the two searches of the end-to-end scenario,
under both strategies. -/
theorem scan_reports_matching_lines_witness :
    10 ∉ cstr (bytes "world") ∧ 10 ∉ cstr (bytes "newline") ∧
    (∀ use_mmap, records (scan_file (Env.plain (bytes "Hello\nWORLD\n")) (bytes "/r/a.txt")
        (Options.search (bytes "world") true use_mmap)) = [(2, bytes "WORLD")]) ∧
    (∀ use_mmap, records (scan_file (Env.plain (bytes "no newline at end"))
        (bytes "/r/sub/b.txt") (Options.search (bytes "newline") false use_mmap))
          = [(1, bytes "no newline at end")]) :=
  ⟨by decide, by decide,
   fun use_mmap => (scan_reports_matching_lines (bytes "Hello\nWORLD\n") (bytes "/r/a.txt")
      (bytes "world") true use_mmap (by decide)).trans (by decide),
   fun use_mmap => (scan_reports_matching_lines (bytes "no newline at end")
      (bytes "/r/sub/b.txt") (bytes "newline") false use_mmap (by decide)).trans (by decide)⟩

/-- C2 as stated fails on a line with a `0` byte: the only logical line of the file
"a\0b\n" contains the needle "b", and neither strategy emits a record. -/
theorem scan_misses_match_after_nul :
    logical_lines [97, 0, 98, 10] = [[97, 0, 98]] ∧
    contains false [97, 0, 98] (bytes "b") = true ∧
    records (scan_file_stream (Env.plain [97, 0, 98, 10]) (bytes "p")
        (Options.search (bytes "b") false false)) = [] ∧
    records (scan_file_mmap (Env.plain [97, 0, 98, 10]) (bytes "p")
        (Options.search (bytes "b") false true)) = [] := by
  decide

/-- C6: with the empty needle, under either strategy, the line numbers of the records are
exactly 1, 2, ..., k, where k is the number of newline bytes plus one if the content is
non-empty and does not end with a newline; a 3-line file without a final newline gives
1, 2, 3. -/
theorem empty_needle_numbers_every_line (content abspath : List Nat) (icase use_mmap : Bool) :
    (records (scan_file (Env.plain content) abspath
        (Options.search [] icase use_mmap))).map Prod.fst =
      (List.range (line_count content)).map (fun (i : Nat) => (i : Int) + 1) ∧
    line_count content =
      content.count 10 + (if content ≠ [] ∧ content.getLast? ≠ some 10 then 1 else 0) ∧
    (records (scan_file (Env.plain (bytes "a\nb\nc")) abspath
        (Options.search [] icase use_mmap))).map Prod.fst = [1, 2, 3] := by
  have h : ∀ c : List Nat,
      (records (scan_file (Env.plain c) abspath (Options.search [] icase use_mmap))).map
        Prod.fst = (List.range (line_count c)).map (fun (i : Nat) => (i : Int) + 1) := by
    intro c
    rw [records_scan_file c abspath [] icase use_mmap (by simp [cstr]),
      expected_records_fst_of_empty c [] icase cstr_nil, logical_lines_length]
  refine ⟨h content, rfl, ?_⟩
  rw [h]
  decide

/-- C7 at the failing input: for the empty line text print_match writes "p:2:" and no
newline, so that scan_file_mmap with the empty needle runs the record of an empty line
into the next one, where scan_file_stream ends it with a newline. -/
theorem print_match_empty_text_unterminated :
    stdout (print_match (bytes "p") 2 []) = bytes "p:2:" ∧
    stdout (scan_file_mmap (Env.plain (bytes "a\n\nc\n")) (bytes "p")
        (Options.search [] false true)) = bytes "p:1:a\np:2:p:3:c\n" ∧
    stdout (scan_file_stream (Env.plain (bytes "a\n\nc\n")) (bytes "p")
        (Options.search [] false false)) = bytes "p:1:a\np:2:\np:3:c\n" := by
  decide

/-! ### Empty files -/

/-- C11: for every needle and either value of ignore_case, scanning an opened zero-byte
file makes scan_file_stream stop at the first getline and scan_file_mmap return right
after fstat: no match record, no output, no diagnostic, and no call of mmap. -/
theorem empty_file_is_silent (env : Env) (abspath : List Nat) (opt : Options) (f : File)
    (ho : env.openFile (cstr abspath) = .ok f) (hc : f.content = [])
    (hs : f.fstat_err = none) :
    scan_file_stream env abspath opt = [Event.sys Sys.fopen (cstr abspath)] ∧
    scan_file_mmap env abspath opt =
      [Event.sys Sys.open_ (cstr abspath), Event.sys Sys.fstat (cstr abspath)] ∧
    records (scan_file_stream env abspath opt) = [] ∧
    records (scan_file_mmap env abspath opt) = [] ∧
    stdout (scan_file_stream env abspath opt) = [] ∧
    stdout (scan_file_mmap env abspath opt) = [] ∧
    stderr (scan_file_stream env abspath opt) = [] ∧
    stderr (scan_file_mmap env abspath opt) = [] ∧
    (∀ p, Event.sys Sys.mmap p ∉ scan_file_mmap env abspath opt) := by
  have h1 : scan_file_stream env abspath opt = [Event.sys Sys.fopen (cstr abspath)] := by
    unfold scan_file_stream
    rw [ho]
    simp only [hc, List.length_nil, Nat.zero_add, scan_stream_loop, getline, ite_self]
  have h2 : scan_file_mmap env abspath opt =
      [Event.sys Sys.open_ (cstr abspath), Event.sys Sys.fstat (cstr abspath)] := by
    unfold scan_file_mmap
    rw [ho]
    simp [hs, hc]
  refine ⟨h1, h2, ?_, ?_, ?_, ?_, ?_, ?_, ?_⟩
  · rw [h1]; rfl
  · rw [h2]; rfl
  · rw [h1]; rfl
  · rw [h2]; rfl
  · rw [h1]; rfl
  · rw [h2]; rfl
  · intro p hp
    rw [h2] at hp
    simp at hp

/-- Witness of `empty_file_is_silent`: the empty regular file searched for "x". -/
theorem empty_file_is_silent_witness :
    (Env.plain []).openFile (cstr (bytes "p")) = .ok (File.plain []) ∧
    (File.plain []).content = [] ∧ (File.plain []).fstat_err = none ∧
    scan_file_mmap (Env.plain []) (bytes "p") (Options.search (bytes "x") false true) =
      [Event.sys Sys.open_ (cstr (bytes "p")), Event.sys Sys.fstat (cstr (bytes "p"))] :=
  ⟨rfl, rfl, rfl,
   (empty_file_is_silent (Env.plain []) (bytes "p") (Options.search (bytes "x") false true)
      (File.plain []) rfl rfl rfl).2.1⟩

/-! ### Diagnostics -/

theorem handle_entry_too_long (env : Env) (walk : List Nat → Options → List Event)
    (parent name : List Nat) (opt : Options) (full : List Nat)
    (hj : path_join parent name (env.buffer env.PATH_MAX) env.PATH_MAX = some (-1, full)) :
    handle_entry env walk parent name opt =
      [Event.eprintf (bytes "path too long: " ++ cstr parent ++ [47] ++ cstr name ++ [10])] := by
  unfold handle_entry
  rw [hj]
  simp

theorem handle_entry_lstat_error (env : Env) (walk : List Nat → Options → List Event)
    (parent name : List Nat) (opt : Options) (full reason : List Nat)
    (hj : path_join parent name (env.buffer env.PATH_MAX) env.PATH_MAX = some (0, full))
    (hl : env.lstat (cstr full) = .error reason) :
    handle_entry env walk parent name opt =
      [Event.sys Sys.lstat (cstr full),
       Event.eprintf (diagnostic (bytes "lstat") (cstr full) reason)] := by
  unfold handle_entry
  rw [hj]
  simp only [ne_eq, not_true_eq_false, if_false, hl, diagnostic]
  have : bytes "lstat failed: " = bytes "lstat" ++ bytes " failed: " := by decide
  rw [this]

theorem walk_dir_opendir_error (env : Env) (depth : Nat) (dirpath : List Nat) (opt : Options)
    (reason : List Nat) (ho : env.opendir (cstr dirpath) = .error reason) :
    walk_dir env (depth + 1) dirpath opt =
      [Event.sys Sys.opendir (cstr dirpath),
       Event.eprintf (diagnostic (bytes "opendir") (cstr dirpath) reason)] := by
  rw [walk_dir, ho]
  simp only [diagnostic]
  have : bytes "opendir failed: " = bytes "opendir" ++ bytes " failed: " := by decide
  rw [this]

theorem scan_open_error (env : Env) (abspath : List Nat) (opt : Options) (reason : List Nat)
    (ho : env.openFile (cstr abspath) = .error reason) :
    scan_file_stream env abspath opt =
        [Event.sys Sys.fopen (cstr abspath),
         Event.eprintf (diagnostic (bytes "open") (cstr abspath) reason)] ∧
      scan_file_mmap env abspath opt =
        [Event.sys Sys.open_ (cstr abspath),
         Event.eprintf (diagnostic (bytes "open") (cstr abspath) reason)] := by
  have : bytes "open failed: " = bytes "open" ++ bytes " failed: " := by decide
  constructor
  · unfold scan_file_stream
    rw [ho]
    simp only [diagnostic, this]
  · unfold scan_file_mmap
    rw [ho]
    simp only [diagnostic, this]

theorem scan_fstat_error (env : Env) (abspath : List Nat) (opt : Options) (f : File)
    (reason : List Nat) (ho : env.openFile (cstr abspath) = .ok f)
    (hs : f.fstat_err = some reason) :
    scan_file_mmap env abspath opt =
      [Event.sys Sys.open_ (cstr abspath), Event.sys Sys.fstat (cstr abspath),
       Event.eprintf (diagnostic (bytes "fstat") (cstr abspath) reason)] := by
  have : bytes "fstat failed: " = bytes "fstat" ++ bytes " failed: " := by decide
  unfold scan_file_mmap
  rw [ho]
  simp only [hs, diagnostic, this]

theorem scan_mmap_error (env : Env) (abspath : List Nat) (opt : Options) (f : File)
    (reason : List Nat) (ho : env.openFile (cstr abspath) = .ok f)
    (hs : f.fstat_err = none) (hr : S_ISREG f.mode = true) (hc : f.content ≠ [])
    (hm : f.mmap_err = some reason) :
    scan_file_mmap env abspath opt =
      [Event.sys Sys.open_ (cstr abspath), Event.sys Sys.fstat (cstr abspath),
       Event.sys Sys.mmap (cstr abspath),
       Event.eprintf (diagnostic (bytes "mmap") (cstr abspath) reason)] := by
  have : bytes "mmap failed: " = bytes "mmap" ++ bytes " failed: " := by decide
  have hlen : (f.content.length == 0) = false := by simpa using hc
  unfold scan_file_mmap
  rw [ho]
  simp only [hs, hr, hlen, hm, diagnostic, this, Bool.not_true, Bool.or_self,
    Bool.false_eq_true, if_false]

theorem walk_dir_entries (env : Env) (depth : Nat) (dirpath : List Nat) (opt : Options)
    (pre post : List (List Nat)) (name : List Nat)
    (ho : env.opendir (cstr dirpath) = .ok (pre ++ name :: post)) :
    walk_dir env (depth + 1) dirpath opt =
      Event.sys Sys.opendir (cstr dirpath) ::
        (pre.flatMap (fun e => handle_entry env (walk_dir env depth) dirpath e opt) ++
          (handle_entry env (walk_dir env depth) dirpath name opt ++
            post.flatMap (fun e => handle_entry env (walk_dir env depth) dirpath e opt))) := by
  rw [walk_dir, ho]
  simp [List.flatMap_append, List.flatMap_cons]

/-- C12 (amended): a failure of lstat, opendir, open or fopen, fstat or mmap makes the
program write exactly one diagnostic line "<operation> failed: <path>: <reason>" and
nothing else for the entry; a path_join overflow makes it write exactly one line
"path too long: <parent>/<name>"; and whatever happens for an entry, walk_dir goes on
with the entries that follow it. -/
theorem recoverable_errors_are_reported (env : Env) (opt : Options) :
    (∀ walk parent name full,
      path_join parent name (env.buffer env.PATH_MAX) env.PATH_MAX = some (-1, full) →
      handle_entry env walk parent name opt =
        [Event.eprintf
          (bytes "path too long: " ++ cstr parent ++ [47] ++ cstr name ++ [10])]) ∧
    (∀ walk parent name full reason,
      path_join parent name (env.buffer env.PATH_MAX) env.PATH_MAX = some (0, full) →
      env.lstat (cstr full) = .error reason →
      handle_entry env walk parent name opt =
        [Event.sys Sys.lstat (cstr full),
         Event.eprintf (diagnostic (bytes "lstat") (cstr full) reason)]) ∧
    (∀ depth dirpath reason, env.opendir (cstr dirpath) = .error reason →
      walk_dir env (depth + 1) dirpath opt =
        [Event.sys Sys.opendir (cstr dirpath),
         Event.eprintf (diagnostic (bytes "opendir") (cstr dirpath) reason)]) ∧
    (∀ abspath reason, env.openFile (cstr abspath) = .error reason →
      scan_file_stream env abspath opt =
          [Event.sys Sys.fopen (cstr abspath),
           Event.eprintf (diagnostic (bytes "open") (cstr abspath) reason)] ∧
        scan_file_mmap env abspath opt =
          [Event.sys Sys.open_ (cstr abspath),
           Event.eprintf (diagnostic (bytes "open") (cstr abspath) reason)]) ∧
    (∀ abspath f reason, env.openFile (cstr abspath) = .ok f → f.fstat_err = some reason →
      scan_file_mmap env abspath opt =
        [Event.sys Sys.open_ (cstr abspath), Event.sys Sys.fstat (cstr abspath),
         Event.eprintf (diagnostic (bytes "fstat") (cstr abspath) reason)]) ∧
    (∀ abspath f reason, env.openFile (cstr abspath) = .ok f → f.fstat_err = none →
      S_ISREG f.mode = true → f.content ≠ [] → f.mmap_err = some reason →
      scan_file_mmap env abspath opt =
        [Event.sys Sys.open_ (cstr abspath), Event.sys Sys.fstat (cstr abspath),
         Event.sys Sys.mmap (cstr abspath),
         Event.eprintf (diagnostic (bytes "mmap") (cstr abspath) reason)]) ∧
    (∀ depth dirpath pre name post, env.opendir (cstr dirpath) = .ok (pre ++ name :: post) →
      walk_dir env (depth + 1) dirpath opt =
        Event.sys Sys.opendir (cstr dirpath) ::
          (pre.flatMap (fun e => handle_entry env (walk_dir env depth) dirpath e opt) ++
            (handle_entry env (walk_dir env depth) dirpath name opt ++
              post.flatMap
                (fun e => handle_entry env (walk_dir env depth) dirpath e opt)))) :=
  ⟨fun walk parent name full hj => handle_entry_too_long env walk parent name opt full hj,
   fun walk parent name full reason hj hl =>
     handle_entry_lstat_error env walk parent name opt full reason hj hl,
   fun depth dirpath reason ho => walk_dir_opendir_error env depth dirpath opt reason ho,
   fun abspath reason ho => scan_open_error env abspath opt reason ho,
   fun abspath f reason ho hs => scan_fstat_error env abspath opt f reason ho hs,
   fun abspath f reason ho hs hr hc hm =>
     scan_mmap_error env abspath opt f reason ho hs hr hc hm,
   fun depth dirpath pre name post ho =>
     walk_dir_entries env depth dirpath opt pre post name ho⟩

/-- Witness of `recoverable_errors_are_reported`: a directory that cannot be opened. -/
theorem recoverable_errors_are_reported_witness :
    Env.denied.opendir (cstr (bytes "d")) = .error (bytes "Permission denied") ∧
    stderr (walk_dir Env.denied 1 (bytes "d") (Options.search (bytes "x") false false)) =
      bytes "opendir failed: d: Permission denied\n" :=
  ⟨rfl,
   (congrArg stderr
      ((recoverable_errors_are_reported Env.denied
        (Options.search (bytes "x") false false)).2.2.1 0 (bytes "d")
          (bytes "Permission denied") rfl)).trans (by decide)⟩

/-- C12 as stated fails for a path that is too long: the one line written for the entry
"averyveryverylongname" of "d" is "path too long: d/averyveryverylongname", which is not
of the form "<operation> failed: <path>: <reason>". -/
theorem path_too_long_has_its_own_form :
    handle_entry Env.sample (walk_dir Env.sample 8) (bytes "d")
        (bytes "averyveryverylongname") (Options.search (bytes "x") false false) =
      [Event.eprintf (bytes "path too long: d/averyveryverylongname\n")] ∧
    contains false (bytes "path too long: d/averyveryverylongname\n") (bytes " failed: ")
      = false := by
  decide

/-- A failed allocation for a line ends scan_file_mmap without any diagnostic: with every
malloc failing, the file "x\n" searched for "x" gives no output on either stream. -/
theorem malloc_failure_is_silent :
    scan_file_mmap (Env.starved (bytes "x\n")) (bytes "p")
        (Options.search (bytes "x") false true) =
      [Event.sys Sys.open_ (bytes "p"), Event.sys Sys.fstat (bytes "p"),
       Event.sys Sys.mmap (bytes "p"), Event.malloc 2] ∧
    stderr (scan_file_mmap (Env.starved (bytes "x\n")) (bytes "p")
        (Options.search (bytes "x") false true)) = [] := by
  decide

/-! ### Lines handed to the matcher and to the reporter -/

theorem haystacks_append (a b : List Event) :
    haystacks (a ++ b) = haystacks a ++ haystacks b := by
  induction a with
  | nil => rfl
  | cons e a ih => cases e <;> simp [haystacks, ih]

theorem printed_append (a b : List Event) : printed (a ++ b) = printed a ++ printed b := by
  induction a with
  | nil => rfl
  | cons e a ih => cases e <;> simp [printed, ih]

theorem haystacks_print_match (abspath : List Nat) (n : Int) (line : List Nat) :
    haystacks (print_match abspath n line) = [] := by
  unfold print_match
  split <;> rfl

theorem printed_print_match (abspath : List Nat) (n : Int) (line : List Nat) :
    printed (print_match abspath n line) = [line] := by
  unfold print_match
  split <;> rfl

theorem haystacks_check_line (abspath : List Nat) (opt : Options) (n : Int)
    (line : List Nat) : haystacks (check_line abspath opt n line) = [line] := by
  unfold check_line
  split
  · show line :: haystacks (print_match abspath n line) = [line]
    rw [haystacks_print_match]
  · rfl

theorem printed_check_line (abspath : List Nat) (opt : Options) (n : Int)
    (line : List Nat) : ∀ x ∈ printed (check_line abspath opt n line), x = line := by
  intro x hx
  unfold check_line at hx
  split at hx
  · have hx' : x ∈ printed (print_match abspath n line) := hx
    rw [printed_print_match] at hx'
    simpa using hx'
  · exact absurd hx (List.not_mem_nil x)

theorem haystacks_run_segs (g : Int → List Nat × Bool → List Event)
    (f : List Nat × Bool → List Nat) (segs : List (List Nat × Bool))
    (h : ∀ n, ∀ p ∈ segs, haystacks (g n p) = [f p]) :
    ∀ n, haystacks (run_segs g n segs) = segs.map f := by
  induction segs with
  | nil => intro n; rfl
  | cons p segs ih =>
    intro n
    rw [run_segs, haystacks_append, h n p (by simp),
      ih (fun m q hq => h m q (by simp [hq])) (n + 1)]
    rfl

theorem printed_run_segs (g : Int → List Nat × Bool → List Event)
    (segs : List (List Nat × Bool)) :
    ∀ n, ∀ x ∈ printed (run_segs g n segs), ∃ m, ∃ p ∈ segs, x ∈ printed (g m p) := by
  induction segs with
  | nil => intro n x hx; exact absurd hx (List.not_mem_nil x)
  | cons p segs ih =>
    intro n x hx
    rw [run_segs, printed_append] at hx
    rcases List.mem_append.1 hx with hx | hx
    · exact ⟨n, p, by simp, hx⟩
    · obtain ⟨m, q, hq, hm⟩ := ih (n + 1) x hx
      exact ⟨m, q, by simp [hq], hm⟩

theorem mem_logical_lines_of_seg (content : List Nat) (p : List Nat × Bool)
    (hp : p ∈ segs_from [] content) : p.1 ∈ logical_lines content := by
  rw [logical_lines, logical_lines_from_eq]
  exact List.mem_map_of_mem Prod.fst hp

/-- C13 (amended): for every file content, each haystack scan_file_mmap hands to
find_substr is a logical line's exact bytes and the terminator, one haystack for each
logical line in order, and none contains a newline byte; each line scan_file_mmap hands
to print_match is such a buffer; each line scan_file_stream hands to print_match is a
logical line's exact bytes, followed by at most the newline that delimits it, and the
terminator. -/
theorem scanners_hand_over_logical_lines (content abspath : List Nat) (opt : Options) :
    haystacks (scan_file_mmap (Env.plain content) abspath opt) =
      (logical_lines content).map (fun l => l ++ [0]) ∧
    (∀ h ∈ haystacks (scan_file_mmap (Env.plain content) abspath opt), 10 ∉ h) ∧
    (∀ x ∈ printed (scan_file_mmap (Env.plain content) abspath opt),
      ∃ l ∈ logical_lines content, x = l ++ [0]) ∧
    (∀ x ∈ printed (scan_file_stream (Env.plain content) abspath opt),
      ∃ l ∈ logical_lines content, x = l ++ [0] ∨ x = l ++ [10, 0]) := by
  have hseg := segs_no_newline content [] (by simp)
  have hm : haystacks (scan_file_mmap (Env.plain content) abspath opt) =
      (segs_from [] content).map (fun p => p.1 ++ [0]) := by
    rw [scan_file_mmap_plain]
    by_cases hc : content = []
    · subst hc; rfl
    · rw [if_neg hc]
      show haystacks (run_segs (mmap_seg abspath opt) 1 _) = _
      exact haystacks_run_segs (mmap_seg abspath opt) (fun p => p.1 ++ [0]) _
        (fun n p _ => haystacks_check_line abspath opt n (p.1 ++ [0])) 1
  refine ⟨?_, ?_, ?_, ?_⟩
  · rw [hm, logical_lines, logical_lines_from_eq, List.map_map]
    rfl
  · intro h hh
    rw [hm] at hh
    obtain ⟨p, hp, rfl⟩ := List.mem_map.1 hh
    have := hseg p hp
    simp only [List.mem_append, List.mem_singleton, not_or]
    exact ⟨this, by decide⟩
  · intro x hx
    rw [scan_file_mmap_plain] at hx
    by_cases hc : content = []
    · subst hc; exact absurd hx (List.not_mem_nil x)
    · rw [if_neg hc] at hx
      obtain ⟨m, p, hp, hxp⟩ := printed_run_segs _ _ 1 x hx
      have hxe := printed_check_line abspath opt m (p.1 ++ [0]) x hxp
      exact ⟨p.1, mem_logical_lines_of_seg content p hp, hxe⟩
  · intro x hx
    rw [scan_file_stream_plain] at hx
    obtain ⟨m, p, hp, hxp⟩ := printed_run_segs _ _ 1 x hx
    have hxe := printed_check_line abspath opt m _ x hxp
    refine ⟨p.1, mem_logical_lines_of_seg content p hp, ?_⟩
    cases hb : p.2 with
    | false => left; simpa [hb] using hxe
    | true => right; simpa [hb] using hxe

/-- C13 as stated fails under scan_file_stream: for the file "a\n" searched for "a", the
only logical line is "a", and the buffer handed to find_substr and to print_match is
"a\n" with its terminator, newline included. -/
theorem stream_haystack_keeps_newline :
    logical_lines (bytes "a\n") = [bytes "a"] ∧
    haystacks (scan_file_stream (Env.plain (bytes "a\n")) (bytes "p")
        (Options.search (bytes "a") false false)) = [[97, 10, 0]] ∧
    printed (scan_file_stream (Env.plain (bytes "a\n")) (bytes "p")
        (Options.search (bytes "a") false false)) = [[97, 10, 0]] ∧
    10 ∈ cstr [97, 10, 0] := by
  decide

/-! ### Order of the line numbers -/

theorem ascending_nil (lo : Int) : Ascending lo [] :=
  ⟨List.Pairwise.nil, fun _ h => by cases h⟩

theorem ascending_mono (lo lo' : Int) (rs : List (Int × List Nat)) (h : Ascending lo' rs)
    (hle : lo ≤ lo') : Ascending lo rs :=
  ⟨h.1, fun r hr => le_trans hle (h.2 r hr)⟩

theorem records_check_line_cases (abspath : List Nat) (opt : Options) (n : Int)
    (line : List Nat) :
    records (check_line abspath opt n line) = [] ∨
      records (check_line abspath opt n line) = [(n, line_text line)] := by
  rw [records_check_line]
  split
  · right; rfl
  · left; rfl

theorem ascending_check_append (abspath : List Nat) (opt : Options) (n : Int)
    (line : List Nat) (rest : List (Int × List Nat)) (h : Ascending (n + 1) rest) :
    Ascending n (records (check_line abspath opt n line) ++ rest) := by
  rcases records_check_line_cases abspath opt n line with hc | hc
  · rw [hc, List.nil_append]
    exact ascending_mono _ _ _ h (by omega)
  · rw [hc]
    refine ⟨?_, ?_⟩
    · simp only [List.singleton_append, List.map_cons, List.pairwise_cons]
      refine ⟨?_, h.1⟩
      intro y hy
      obtain ⟨r, hr, rfl⟩ := List.mem_map.1 hy
      have := h.2 r hr
      omega
    · intro r hr
      simp only [List.singleton_append, List.mem_cons] at hr
      rcases hr with rfl | hr
      · exact le_refl _
      · have := h.2 r hr
        omega

theorem ascending_stream_loop (abspath : List Nat) (opt : Options) (f : File) :
    ∀ (fuel : Nat) (stream : List Nat) (lineno : Int),
      Ascending (lineno + 1) (records (scan_stream_loop abspath opt f fuel stream lineno)) := by
  intro fuel
  induction fuel with
  | zero => intro stream lineno; exact ascending_nil _
  | succ fuel ih =>
    intro stream lineno
    rw [scan_stream_loop]
    cases hg : (if f.getline_ok (lineno + 1) = true then getline stream else none) with
    | none => exact ascending_nil _
    | some p =>
      obtain ⟨line, rest⟩ := p
      simp only
      rw [records_append]
      exact ascending_check_append abspath opt (lineno + 1) _ _ (ih rest (lineno + 1))

theorem ascending_mmap_loop (abspath : List Nat) (opt : Options) (f : File)
    (buf : List Nat) :
    ∀ (k i : Nat) (line_no : Int) (line_start : Nat),
      Ascending line_no
          (records (scan_mmap_loop abspath opt f buf k i line_no line_start).1) ∧
        ∀ n s, (scan_mmap_loop abspath opt f buf k i line_no line_start).2 = some (n, s) →
          line_no ≤ n ∧
            ∀ r ∈ records (scan_mmap_loop abspath opt f buf k i line_no line_start).1,
              r.1 < n := by
  intro k
  induction k with
  | zero =>
    intro i line_no line_start
    simp only [scan_mmap_loop]
    refine ⟨ascending_nil _, ?_⟩
    intro n s h
    simp only [Option.some.injEq, Prod.mk.injEq] at h
    refine ⟨by omega, ?_⟩
    intro r hr
    cases hr
  | succ k ih =>
    intro i line_no line_start
    rw [scan_mmap_loop]
    by_cases hnl : buf.getD i 0 = 10
    · rw [if_pos hnl]
      by_cases hm : f.malloc_ok line_no = true
      · simp only [hm, if_true]
        obtain ⟨ih1, ih2⟩ := ih (i + 1) (line_no + 1) (i + 1)
        have hrec : records (Event.malloc (i - line_start + 1) ::
              check_line abspath opt line_no
                (List.take (i - line_start) (List.drop line_start buf) ++ [0]) ++
            (scan_mmap_loop abspath opt f buf k (i + 1) (line_no + 1) (i + 1)).1) =
            records (check_line abspath opt line_no
                (List.take (i - line_start) (List.drop line_start buf) ++ [0])) ++
              records (scan_mmap_loop abspath opt f buf k (i + 1) (line_no + 1) (i + 1)).1 := by
          rw [← records_append]; rfl
        rw [hrec]
        refine ⟨ascending_check_append abspath opt line_no _ _ ih1, ?_⟩
        intro n s h
        obtain ⟨hle, hlt⟩ := ih2 n s h
        refine ⟨by omega, ?_⟩
        intro r hr
        rcases List.mem_append.1 hr with hr | hr
        · rcases records_check_line_cases abspath opt line_no
            (List.take (i - line_start) (List.drop line_start buf) ++ [0]) with hc | hc
          · rw [hc] at hr; cases hr
          · rw [hc] at hr
            simp only [List.mem_singleton] at hr
            subst hr
            show line_no < n
            omega
        · exact hlt r hr
      · simp only [hm, Bool.false_eq_true, if_false]
        refine ⟨ascending_nil _, ?_⟩
        intro n s h
        cases h
    · rw [if_neg hnl]
      exact ih (i + 1) line_no line_start

theorem records_mmap_tail (abspath : List Nat) (opt : Options) (f : File) (buf : List Nat)
    (len : Nat) (n : Int) (s : Nat) :
    records (scan_mmap_tail abspath opt f buf len n s) = [] ∨
      ∃ text, records (scan_mmap_tail abspath opt f buf len n s) = [(n, text)] := by
  unfold scan_mmap_tail
  split
  · split
    · rcases records_check_line_cases abspath opt n
        (List.take (len - s) (List.drop s buf) ++ [0]) with hc | hc
      · left; exact hc
      · right; exact ⟨_, hc⟩
    · left; rfl
  · left; rfl

theorem ascending_append_last (lo n : Int) (rs tl : List (Int × List Nat))
    (h : Ascending lo rs) (hlo : lo ≤ n) (hlt : ∀ r ∈ rs, r.1 < n)
    (ht : tl = [] ∨ ∃ text, tl = [(n, text)]) : Ascending lo (rs ++ tl) := by
  rcases ht with rfl | ⟨text, rfl⟩
  · simpa using h
  · refine ⟨?_, ?_⟩
    · rw [List.map_append, List.pairwise_append]
      refine ⟨h.1, by simp, ?_⟩
      intro x hx y hy
      obtain ⟨r, hr, rfl⟩ := List.mem_map.1 hx
      simp only [List.map_cons, List.map_nil, List.mem_singleton] at hy
      subst hy
      exact hlt r hr
    · intro r hr
      rcases List.mem_append.1 hr with hr | hr
      · exact h.2 r hr
      · simp only [List.mem_singleton] at hr
        subst hr
        exact hlo

theorem ascending_scan_file_stream (env : Env) (abspath : List Nat) (opt : Options) :
    Ascending 1 (records (scan_file_stream env abspath opt)) := by
  unfold scan_file_stream
  cases ho : env.openFile (cstr abspath) with
  | error reason => exact ascending_nil _
  | ok f =>
    have := ascending_stream_loop abspath opt f (f.content.length + 1) f.content 0
    simpa [records] using this

theorem ascending_scan_file_mmap (env : Env) (abspath : List Nat) (opt : Options) :
    Ascending 1 (records (scan_file_mmap env abspath opt)) := by
  unfold scan_file_mmap
  cases ho : env.openFile (cstr abspath) with
  | error reason => exact ascending_nil _
  | ok f =>
    simp only
    cases hs : f.fstat_err with
    | some reason => exact ascending_nil _
    | none =>
      simp only
      split
      · exact ascending_nil _
      · cases hmm : f.mmap_err with
        | some reason => exact ascending_nil _
        | none =>
          simp only
          obtain ⟨h1, h2⟩ := ascending_mmap_loop abspath opt f f.content f.content.length 0 1 0
          cases hr : (scan_mmap_loop abspath opt f f.content f.content.length 0 1 0).2 with
          | none => simpa [records] using h1
          | some p =>
            obtain ⟨n, s⟩ := p
            obtain ⟨hle, hlt⟩ := h2 n s hr
            have := ascending_append_last 1 n _ _ h1 hle hlt
              (records_mmap_tail abspath opt f f.content f.content.length n s)
            simpa [records, records_append] using this

/-- C14: for every system, file, needle and either value of ignore_case, under both
strategies the line numbers of the records of one file are strictly increasing in the
order of emission and all at least 1. -/
theorem line_numbers_strictly_increase (env : Env) (abspath : List Nat) (opt : Options) :
    (((records (scan_file_stream env abspath opt)).map Prod.fst).Pairwise
        (fun x y => x < y) ∧
      ∀ r ∈ records (scan_file_stream env abspath opt), 1 ≤ r.1) ∧
    (((records (scan_file_mmap env abspath opt)).map Prod.fst).Pairwise
        (fun x y => x < y) ∧
      ∀ r ∈ records (scan_file_mmap env abspath opt), 1 ≤ r.1) :=
  ⟨ascending_scan_file_stream env abspath opt, ascending_scan_file_mmap env abspath opt⟩

/-! ### Standard output of a scan -/

theorem stdout_append (a b : List Event) : stdout (a ++ b) = stdout a ++ stdout b := by
  induction a with
  | nil => rfl
  | cons e a ih => cases e <;> simp [stdout, ih]

theorem getD_zero_ne_zero_iff (line : List Nat) : line.getD 0 0 ≠ 0 ↔ cstr line ≠ [] := by
  cases line with
  | nil => simp [cstr]
  | cons c rest =>
    by_cases hc : c = 0
    · subst hc; simp [cstr_cons_zero]
    · simp [cstr_cons_ne c rest hc, hc]

theorem stdout_print_match (abspath : List Nat) (n : Int) (line : List Nat) :
    stdout (print_match abspath n line) =
      cstr abspath ++ [58] ++ fmt_ld n ++ [58] ++ written line := by
  have hcond : (line.getD 0 0 ≠ 0 ∧ line.getD (strlen line - 1) 0 ≠ 10) ↔
      (cstr line ≠ [] ∧ (cstr line).getLast? ≠ some 10) := by
    rw [getD_zero_ne_zero_iff]
    constructor
    · rintro ⟨h0, h1⟩
      refine ⟨h0, ?_⟩
      have hpos : 0 < strlen line := List.length_pos.2 h0
      rw [Ne, getLast?_eq_getD (cstr line) h0 10, ← getD_cstr line _ (by have hs : strlen line = (cstr line).length := rfl; omega)]
      exact h1
    · rintro ⟨h0, h1⟩
      refine ⟨h0, ?_⟩
      have hpos : 0 < strlen line := List.length_pos.2 h0
      rw [Ne, getLast?_eq_getD (cstr line) h0 10, ← getD_cstr line _ (by have hs : strlen line = (cstr line).length := rfl; omega)] at h1
      exact h1
  unfold print_match written
  by_cases h : cstr line ≠ [] ∧ (cstr line).getLast? ≠ some 10
  · rw [if_pos (hcond.2 h), if_pos h]
    simp [stdout]
  · rw [if_neg (fun hh => h (hcond.1 hh)), if_neg h]
    simp [stdout]

theorem stdout_check_line (abspath : List Nat) (opt : Options) (n : Int) (line : List Nat) :
    stdout (check_line abspath opt n line) =
      if contains opt.ignore_case (cstr line) (cstr opt.needle) then
        cstr abspath ++ [58] ++ fmt_ld n ++ [58] ++ written line
      else [] := by
  unfold check_line
  rw [find_substr_isSome]
  by_cases h : contains opt.ignore_case (cstr line) (cstr opt.needle) = true
  · rw [if_pos h, if_pos h]
    exact stdout_print_match abspath n line
  · rw [if_neg h, if_neg h]
    rfl

theorem written_stream_line (l : List Nat) (t : Bool) (hl : 10 ∉ l)
    (hne : cstr (l ++ (if t then [10] else []) ++ [0]) ≠ []) :
    written (l ++ (if t then [10] else []) ++ [0]) = cstr l ++ [10] := by
  unfold written
  rw [cstr_stream_line] at hne ⊢
  have hlast : (cstr l).getLast? ≠ some 10 :=
    getLast?_ne_of_not_mem _ _ (fun hm => hl (cstr_subset l _ hm))
  by_cases h : t = true ∧ 0 ∉ l
  · have hl' : ∀ c ∈ l, c ≠ 0 := fun c hc hz => h.2 (hz ▸ hc)
    rw [if_pos h, cstr_of_no_zero l hl']
    simp
  · rw [if_neg h] at hne ⊢
    rw [if_pos ⟨hne, hlast⟩]

theorem written_mmap_line (l : List Nat) (hl : 10 ∉ l) (hne : cstr l ≠ []) :
    written (l ++ [0]) = cstr l ++ [10] := by
  have := written_stream_line l false hl (by simpa [cstr_append_terminator] using hne)
  simpa using this

theorem contains_ne_nil (ic : Bool) (h n : List Nat) (hn : n ≠ [])
    (hc : contains ic h n = true) : h ≠ [] := by
  obtain ⟨i, hi⟩ := (contains_iff ic h n).1 hc
  have h1 := hi.1
  have h2 := List.length_pos.2 hn
  intro he
  rw [he, List.length_nil] at h1
  omega

theorem stdout_run_segs_congr (g g' : Int → List Nat × Bool → List Event)
    (segs : List (List Nat × Bool))
    (h : ∀ n, ∀ p ∈ segs, stdout (g n p) = stdout (g' n p)) :
    ∀ n, stdout (run_segs g n segs) = stdout (run_segs g' n segs) := by
  induction segs with
  | nil => intro n; rfl
  | cons p segs ih =>
    intro n
    rw [run_segs, run_segs, stdout_append, stdout_append, h n p (by simp),
      ih (fun m q hq => h m q (by simp [hq]))]

theorem stdout_seg_eq (abspath : List Nat) (opt : Options) (n : Int) (p : List Nat × Bool)
    (hl : 10 ∉ p.1) (hne : cstr opt.needle ≠ []) (hn : 10 ∉ cstr opt.needle) :
    stdout (stream_seg abspath opt n p) = stdout (mmap_seg abspath opt n p) := by
  unfold stream_seg mmap_seg
  show _ = stdout (check_line abspath opt n (p.1 ++ [0]))
  rw [stdout_check_line, stdout_check_line, contains_stream_line _ _ _ _ hn,
    cstr_append_terminator]
  by_cases hc : contains opt.ignore_case (cstr p.1) (cstr opt.needle) = true
  · have hne' : cstr p.1 ≠ [] := contains_ne_nil _ _ _ hne hc
    have hs : cstr (p.1 ++ (if p.2 then [10] else []) ++ [0]) ≠ [] := by
      rw [cstr_stream_line]
      split
      · simp
      · exact hne'
    rw [if_pos hc, if_pos hc, written_stream_line _ _ hl hs, written_mmap_line _ hl hne']
  · rw [if_neg hc, if_neg hc]

/-- C15: for every file content, NUL bytes included, every non-empty needle without a
newline byte and either value of ignore_case, when no call fails scan_file_stream and
scan_file_mmap write the same bytes to standard output for the same path. -/
theorem scanners_write_same_output (content abspath : List Nat) (opt : Options)
    (hne : cstr opt.needle ≠ []) (hn : 10 ∉ cstr opt.needle) :
    stdout (scan_file_stream (Env.plain content) abspath opt) =
      stdout (scan_file_mmap (Env.plain content) abspath opt) := by
  rw [scan_file_stream_plain, scan_file_mmap_plain]
  by_cases hc : content = []
  · subst hc; rfl
  · rw [if_neg hc]
    show stdout (run_segs _ 1 _) = stdout (run_segs _ 1 _)
    exact stdout_run_segs_congr _ _ _
      (fun n p hp => stdout_seg_eq abspath opt n p
        (segs_no_newline content [] (by simp) p hp) hne hn) 1

/-- Witness of `scanners_write_same_output`: a file with a NUL byte, an empty line and no
final newline, searched for "b" without regard to case. -/
theorem scanners_write_same_output_witness :
    cstr (Options.search (bytes "b") true false).needle ≠ [] ∧
    10 ∉ cstr (Options.search (bytes "b") true false).needle ∧
    stdout (scan_file_mmap (Env.plain [97, 66, 0, 99, 10, 10, 98])
        (bytes "p") (Options.search (bytes "b") true false)) = bytes "p:1:aB\np:3:b\n" ∧
    stdout (scan_file_stream (Env.plain [97, 66, 0, 99, 10, 10, 98])
        (bytes "p") (Options.search (bytes "b") true false)) = bytes "p:1:aB\np:3:b\n" :=
  ⟨by decide, by decide, by decide,
   (scanners_write_same_output [97, 66, 0, 99, 10, 10, 98] (bytes "p")
      (Options.search (bytes "b") true false) (by decide) (by decide)).trans (by decide)⟩

/-! ### Capacity of the path buffer -/

theorem take_cons_append (J T : List Nat) (cap : Nat) (h : J.length + 1 ≤ cap) :
    (J ++ 0 :: T).take cap = J ++ 0 :: T.take (cap - (J.length + 1)) := by
  rw [List.take_append_eq_append_take, List.take_of_length_le (by omega)]
  have : cap - J.length = (cap - (J.length + 1)) + 1 := by omega
  rw [this, List.take_succ_cons]

theorem drop_cons_append (J T : List Nat) (cap : Nat) (h : J.length + 1 ≤ cap) :
    (J ++ 0 :: T).drop cap = T.drop (cap - (J.length + 1)) := by
  rw [List.drop_append_eq_append_drop, List.drop_of_length_le (by omega)]
  have : cap - J.length = (cap - (J.length + 1)) + 1 := by omega
  rw [this, List.nil_append, List.drop_succ_cons]

/-- C16: whenever path_join succeeds, the string it leaves in the buffer, terminator
included, occupies at most `cap` bytes, the bytes of the buffer from index `cap` on are
as they were, and the same call on a buffer of only `cap` bytes makes no write out of
its bounds; this for every parent, empty, ending with '/' or not. -/
theorem path_join_within_capacity (a b out : List Nat) (cap : Nat) (out' : List Nat)
    (hfit : strlen a + strlen b + 2 < 2 ^ 64)
    (h : path_join a b out cap = some (0, out')) :
    strlen out' + 1 ≤ cap ∧ out'.length = out.length ∧ out'.drop cap = out.drop cap ∧
      path_join a b (out.take cap) cap = some (0, out'.take cap) := by
  have hmod : (strlen a + 1 + strlen b + 1) % 2 ^ 64 = strlen a + strlen b + 2 := by
    rw [Nat.mod_eq_of_lt (by omega)]; omega
  have hjl : (joined a b).length + 1 ≤ strlen a + strlen b + 2 := by
    unfold joined
    split
    · simp [strlen]; omega
    · simp [strlen]
  have h' := h
  rw [path_join_eq, hmod] at h'
  by_cases hc : strlen a + strlen b + 2 > cap
  · rw [if_pos hc] at h'; simp at h'
  rw [if_neg hc] at h'
  by_cases hb : (joined a b).length + 1 ≤ out.length
  swap
  · rw [if_neg hb] at h'; cases h'
  rw [if_pos hb] at h'
  simp only [Option.some.injEq, Prod.mk.injEq, true_and] at h'
  have hcap : (joined a b).length + 1 ≤ cap := by omega
  refine ⟨?_, ?_, ?_, ?_⟩
  · rw [← h', strlen_append_zero _ _ (joined_no_zero a b)]
    exact hcap
  · rw [← h']
    simp only [List.length_append, List.length_cons, List.length_drop]
    omega
  · rw [← h', drop_cons_append _ _ _ hcap, List.drop_drop]
    congr 1
    omega
  · rw [path_join_eq, hmod, if_neg hc, if_pos (by rw [List.length_take]; omega), ← h',
      take_cons_append _ _ _ hcap, List.drop_take]

/-- Witness of `path_join_within_capacity`: the empty parent and "x" in 8 bytes. -/
theorem path_join_within_capacity_witness :
    strlen [] + strlen (bytes "x") + 2 < 2 ^ 64 ∧
    path_join [] (bytes "x") (List.replicate 9 7) 8 = some (0, [120, 0, 7, 7, 7, 7, 7, 7, 7]) ∧
    strlen [120, 0, 7, 7, 7, 7, 7, 7, 7] + 1 ≤ 8 :=
  ⟨by decide, by decide,
   (path_join_within_capacity [] (bytes "x") (List.replicate 9 7) 8
      [120, 0, 7, 7, 7, 7, 7, 7, 7] (by decide) (by decide)).1⟩

/-! ### Shape of the output lines -/

theorem reports_append (a b : List Event) : reports (a ++ b) = reports a ++ reports b := by
  induction a with
  | nil => rfl
  | cons e a ih => cases e <;> simp [reports, ih]

theorem reports_print_match (abspath : List Nat) (n : Int) (line : List Nat) :
    reports (print_match abspath n line) = [stdout (print_match abspath n line)] := by
  have h : print_match abspath n line =
      Event.print_match abspath n line ::
        (Event.printf (cstr abspath ++ [58] ++ fmt_ld n ++ [58] ++ cstr line) ::
          (if line.getD 0 0 ≠ 0 ∧ line.getD (strlen line - 1) 0 ≠ 10 then [Event.printf [10]]
           else [])) := rfl
  conv_lhs => rw [h]
  simp only [reports]
  split <;> rfl

theorem reports_check_line (abspath : List Nat) (opt : Options) (n : Int) (line : List Nat) :
    reports (check_line abspath opt n line) =
      if contains opt.ignore_case (cstr line) (cstr opt.needle) then
        [cstr abspath ++ [58] ++ fmt_ld n ++ [58] ++ written line]
      else [] := by
  unfold check_line
  rw [find_substr_isSome]
  by_cases h : contains opt.ignore_case (cstr line) (cstr opt.needle) = true
  · rw [if_pos h, if_pos h]
    show reports (print_match abspath n line) = _
    rw [reports_print_match, stdout_print_match]
  · rw [if_neg h, if_neg h]
    rfl

theorem stdout_eq_reports_check_line (abspath : List Nat) (opt : Options) (n : Int)
    (line : List Nat) :
    stdout (check_line abspath opt n line) = (reports (check_line abspath opt n line)).flatten := by
  rw [stdout_check_line, reports_check_line]
  split <;> simp

theorem completeLine_of_text (abspath : List Nat) (n : Int) (x : List Nat) (hx : 10 ∉ x) :
    CompleteLine abspath (cstr abspath ++ [58] ++ fmt_ld n ++ [58] ++ (x ++ [10])) := by
  refine ⟨n, x ++ [10], rfl, by simp, ?_, by simp⟩
  rw [List.count_append, List.count_eq_zero_of_not_mem hx]
  rfl

theorem reports_stream_seg (abspath : List Nat) (opt : Options) (n : Int)
    (p : List Nat × Bool) (hl : 10 ∉ p.1) (hne : cstr opt.needle ≠ []) :
    ∀ r ∈ reports (stream_seg abspath opt n p), CompleteLine abspath r := by
  intro r hr
  unfold stream_seg at hr
  rw [reports_check_line] at hr
  by_cases hc : contains opt.ignore_case
      (cstr (p.1 ++ (if p.2 then [10] else []) ++ [0])) (cstr opt.needle) = true
  · rw [if_pos hc] at hr
    have hs := contains_ne_nil _ _ _ hne hc
    rw [written_stream_line _ _ hl hs] at hr
    simp only [List.mem_singleton] at hr
    subst hr
    exact completeLine_of_text abspath n _ (fun hm => hl (cstr_subset _ _ hm))
  · rw [if_neg hc] at hr
    exact absurd hr (List.not_mem_nil r)

theorem reports_mmap_seg (abspath : List Nat) (opt : Options) (n : Int)
    (p : List Nat × Bool) (hl : 10 ∉ p.1) (hne : cstr opt.needle ≠ []) :
    ∀ r ∈ reports (mmap_seg abspath opt n p), CompleteLine abspath r := by
  intro r hr
  unfold mmap_seg at hr
  have hr' : r ∈ reports (check_line abspath opt n (p.1 ++ [0])) := hr
  rw [reports_check_line] at hr'
  by_cases hc : contains opt.ignore_case (cstr (p.1 ++ [0])) (cstr opt.needle) = true
  · rw [if_pos hc] at hr'
    have hs := contains_ne_nil _ _ _ hne hc
    rw [cstr_append_terminator] at hs
    rw [written_mmap_line _ hl hs] at hr'
    simp only [List.mem_singleton] at hr'
    subst hr'
    exact completeLine_of_text abspath n _ (fun hm => hl (cstr_subset _ _ hm))
  · rw [if_neg hc] at hr'
    exact absurd hr' (List.not_mem_nil r)

theorem run_segs_reports (abspath : List Nat) (g : Int → List Nat × Bool → List Event)
    (segs : List (List Nat × Bool))
    (h1 : ∀ n, ∀ p ∈ segs, ∀ r ∈ reports (g n p), CompleteLine abspath r)
    (h2 : ∀ n, ∀ p ∈ segs, stdout (g n p) = (reports (g n p)).flatten) :
    ∀ n, (∀ r ∈ reports (run_segs g n segs), CompleteLine abspath r) ∧
      stdout (run_segs g n segs) = (reports (run_segs g n segs)).flatten := by
  induction segs with
  | nil =>
    intro n
    exact ⟨fun r hr => absurd hr (List.not_mem_nil r), rfl⟩
  | cons p segs ih =>
    intro n
    obtain ⟨i1, i2⟩ := ih (fun m q hq => h1 m q (by simp [hq]))
      (fun m q hq => h2 m q (by simp [hq])) (n + 1)
    rw [run_segs, reports_append, stdout_append, List.flatten_append, i2, h2 n p (by simp)]
    refine ⟨?_, rfl⟩
    intro r hr
    rcases List.mem_append.1 hr with hr | hr
    · exact h1 n p (by simp) r hr
    · exact i1 r hr

/-- C17: for every file content, every non-empty needle and either value of ignore_case,
under both strategies standard output is the sequence of what the calls of print_match
write, and each of them is "path:lineno:" followed by a non-empty text in which exactly
one newline byte occurs, as its last byte. -/
theorem every_record_is_a_complete_line (content abspath : List Nat) (opt : Options)
    (hne : cstr opt.needle ≠ []) :
    ((∀ r ∈ reports (scan_file_stream (Env.plain content) abspath opt),
        CompleteLine abspath r) ∧
      stdout (scan_file_stream (Env.plain content) abspath opt) =
        (reports (scan_file_stream (Env.plain content) abspath opt)).flatten) ∧
    ((∀ r ∈ reports (scan_file_mmap (Env.plain content) abspath opt),
        CompleteLine abspath r) ∧
      stdout (scan_file_mmap (Env.plain content) abspath opt) =
        (reports (scan_file_mmap (Env.plain content) abspath opt)).flatten) := by
  have hseg := segs_no_newline content [] (by simp)
  constructor
  · rw [scan_file_stream_plain]
    exact run_segs_reports abspath _ _
      (fun n p hp => reports_stream_seg abspath opt n p (hseg p hp) hne)
      (fun n p _ => stdout_eq_reports_check_line abspath opt n _) 1
  · rw [scan_file_mmap_plain]
    by_cases hc : content = []
    · subst hc
      exact ⟨fun r hr => absurd hr (List.not_mem_nil r), rfl⟩
    · rw [if_neg hc]
      exact run_segs_reports abspath _ _
        (fun n p hp => reports_mmap_seg abspath opt n p (hseg p hp) hne)
        (fun n p _ => stdout_eq_reports_check_line abspath opt n _) 1

/-- Witness of `every_record_is_a_complete_line`: "x\ny" searched for "y" through mmap
writes the one line "p:2:y\n". -/
theorem every_record_is_a_complete_line_witness :
    cstr (Options.search (bytes "y") false true).needle ≠ [] ∧
    reports (scan_file_mmap (Env.plain (bytes "x\ny")) (bytes "p")
        (Options.search (bytes "y") false true)) = [bytes "p:2:y\n"] ∧
    CompleteLine (bytes "p") (bytes "p:2:y\n") :=
  ⟨by decide, by decide,
   (every_record_is_a_complete_line (bytes "x\ny") (bytes "p")
      (Options.search (bytes "y") false true) (by decide)).2.1 (bytes "p:2:y\n") (by decide)⟩

end Rgrep
